import Mathlib

/-!
# promise-eventemitter: the listener registry and its sequential dispatch

A shallow embedding of `src/index.js` (class `PromiseEventEmitter`).

* JavaScript values are the inductive `Value`; a function value is a reference
  (`Value.function ref`), compared by reference as `===` does.
* What a user-supplied listener does when it is called is not part of the
  library. It is supplied by a `Program`, which maps a function reference and
  the argument list of the call to a `Behaviour`: the registry operations the
  body performs and the way the call completes (normally, by a synchronous
  `throw`, or by returning a promise that rejects).
* An emitter is a `State`: the property table `_listeners`, the threshold
  `_maxListeners`, and two logs that make side effects observable (the
  `console.warn` calls and the calls of raw listeners).
* `emit` runs to completion: the dispatch is sequential and every wrapped
  listener is awaited before the next one is invoked, so one `emit` is a
  function from the state before the call to the settlement of the returned
  promise and the state after it.
-/

namespace PromiseEventEmitter

/-! ## Values -/

/-- A JavaScript number: `NaN`, the two infinities, or a finite value. -/
inductive JSNumber
  | nan
  | posInf
  | negInf
  | fin (q : ℚ)
  deriving DecidableEq

/-- The relational comparison `a < b` on numbers (false when either side is `NaN`). -/
def JSNumber.lt : JSNumber → JSNumber → Bool
  | .nan, _ => false
  | _, .nan => false
  | .posInf, _ => false
  | _, .negInf => false
  | .negInf, _ => true
  | .fin _, .posInf => true
  | .fin a, .fin b => decide (a < b)

/-- A JavaScript value. Functions and other objects are references. The
`error` constructor stands for the `Error` objects that the library or the
runtime builds itself: the constructor name and the `code` property. -/
inductive Value
  | undefined
  | null
  | boolean (b : Bool)
  | number (x : JSNumber)
  | string (s : String)
  | function (ref : Nat)
  | object (ref : Nat)
  | error (name : String) (code : Option String)
  deriving DecidableEq

/-- Truthiness of a value, as tested by `if (v)` and by `a || b`. -/
def Value.truthy : Value → Bool
  | .undefined => false
  | .null => false
  | .boolean b => b
  | .number .nan => false
  | .number (.fin q) => decide (q ≠ 0)
  | .number _ => true
  | .string s => decide (s ≠ "")
  | .function _ => true
  | .object _ => true
  | .error _ _ => true

/-- Strict equality `a === b`: equality of values, except that `NaN` equals nothing. -/
def strictEquals (a b : Value) : Bool :=
  match a, b with
  | .number .nan, _ => false
  | _, .number .nan => false
  | _, _ => decide (a = b)

/-- Event names, as the property keys under which `_listeners` stores them.
Every name is an ordinary key: the key `__proto__`, which the object installed
by `removeAllListeners()` (index.js:174) treats specially, is outside the model. -/
abbrev EventName := String

/-- The settlement of a promise returned by the library: fulfilled with no
value, or rejected with the given reason. -/
inductive Settled
  | fulfilled
  | rejected (reason : Value)
  deriving DecidableEq

deriving instance DecidableEq for Except

/-! ## The registry state -/

/-- The context object `ctx` that `_wrapListener` and `_wrapErrorListener`
bind to the function they return, together with the property `listener` that
`_addListener` attaches to that function (index.js:70). Both hold the raw
listener, which has passed `_verifyListenerType` and is therefore a function:
the entry keeps its reference.

Which of the two wrappers an entry is made by is not stored: `_addListener`
chooses it from the event name (index.js:66) and stores the entry under that
same name, so `emit` reads it off the event name. -/
structure Wrapped where
  listener : Nat
  once : Bool
  fired : Bool
  deriving DecidableEq

/-- The object `this._listeners`: own properties in insertion order, each an
array of wrapped listeners. -/
abbrev Table := List (EventName × List Wrapped)

/-- The property read `this._listeners[eventName]`; `none` is `undefined`. -/
def getProp : Table → EventName → Option (List Wrapped)
  | [], _ => none
  | (k, v) :: t, e => if k = e then some v else getProp t e

/-- The assignment `this._listeners[eventName] = v`: an existing property keeps
its place, a new one is added last. -/
def setProp : Table → EventName → List Wrapped → Table
  | [], e, v => [(e, v)]
  | (k, x) :: t, e, v => if k = e then (k, v) :: t else (k, x) :: setProp t e v

/-- An emitter, with the two logs that record its observable side effects.
`warnings` holds the listener count printed by each `console.warn` of
`_addListener`; `calls` holds every call of a raw listener, with its arguments. -/
structure State where
  _listeners : Table
  _maxListeners : Option JSNumber
  warnings : List Nat
  calls : List (Nat × List Value)
  deriving DecidableEq

/-- The static `PromiseEventEmitter.defaultMaxListeners` (index.js:233). -/
def defaultMaxListeners : JSNumber := .fin 10

/-- The `constructor` (index.js:2-5), with empty logs. -/
def create : State :=
  { _listeners := [], _maxListeners := some defaultMaxListeners, warnings := [], calls := [] }

/-- The method `listenerCount` (index.js:99-104). -/
def listenerCount (s : State) (eventName : EventName) : Nat :=
  match getProp s._listeners eventName with
  | some arr => arr.length
  | none => 0

/-- The method `getMaxListeners` (index.js:221-226). -/
def getMaxListeners (s : State) : JSNumber :=
  match s._maxListeners with
  | none => defaultMaxListeners
  | some n => n

/-- The array stored for an event, empty when there is none. -/
def listenersOf (s : State) (eventName : EventName) : List Wrapped :=
  (getProp s._listeners eventName).getD []

/-! ## Registration -/

/-- The error built by `_verifyListenerType` (index.js:157-158). -/
def invalidArgType : Value := .error "TypeError" (some "ERR_INVALID_ARG_TYPE")

/-- The method `_verifyListenerType` (index.js:155-161): throws unless
`typeof listener` is `'function'`. On success the model hands back the
reference of the function, which is what the test has established. -/
def _verifyListenerType : Value → Except Value Nat
  | .function ref => .ok ref
  | _ => .error invalidArgType

/-- The context built by `_wrapListener` (index.js:116-121). -/
def _wrapListener (listener : Nat) (once : Bool) : Wrapped :=
  { listener := listener, once := once, fired := false }

/-- The context built by `_wrapErrorListener` (index.js:140-145). -/
def _wrapErrorListener (listener : Nat) (once : Bool) : Wrapped :=
  { listener := listener, once := once, fired := false }

/-- The array method `findIndex`: the first index whose element satisfies `p`, or `-1`. -/
def findIndex (p : Wrapped → Bool) (arr : List Wrapped) : Int :=
  match arr.findIdx? p with
  | some i => (i : Int)
  | none => -1

/-- The array method `splice(start, deleteCount, ...items)` for an integer `start`:
a negative `start` counts from the end, and both numbers are clamped to the array. -/
def splice (arr : List Wrapped) (start : Int) (deleteCount : Nat) (items : List Wrapped) :
    List Wrapped :=
  let len : Int := arr.length
  let actualStart : Nat := if start < 0 then (max (len + start) 0).toNat else (min start len).toNat
  let actualDeleteCount : Nat := min deleteCount (arr.length - actualStart)
  arr.take actualStart ++ items ++ arr.drop (actualStart + actualDeleteCount)

/-- The insertion index `addAt` that `_addListener` computes (index.js:72-87)
for the array `arr` of the event. `index` is the parameter `at`: `none` for
`null` or `undefined`, otherwise an integer index. -/
def addAt (arr : List Wrapped) (prepend : Bool) (after before : Value) (index : Option Int) :
    Int :=
  if prepend then 0
  else match index with
    | some i => i
    | none =>
      if after.truthy || before.truthy then
        let found := findIndex (fun wrpFn =>
          strictEquals (.function wrpFn.listener) after
            || strictEquals (.function wrpFn.listener) before) arr
        if found = -1 then (arr.length : Int)
        else if after.truthy then found + 1
        else found
      else (arr.length : Int)

/-- The method `_addListener` (index.js:53-97); `index` is the parameter `at`. -/
def _addListener (eventName : EventName) (listener : Value) (once prepend : Bool)
    (after before : Value) (index : Option Int) (s : State) : Except Value State :=
  match _verifyListenerType listener with
  | .error e => .error e
  | .ok ref =>
    let table :=
      if (getProp s._listeners eventName).isSome then s._listeners
      else setProp s._listeners eventName []
    let wrappedListener :=
      if eventName = "listener-error" then _wrapErrorListener ref once
      else _wrapListener ref once
    let arr := (getProp table eventName).getD []
    let arr1 := splice arr (addAt arr prepend after before index) 0 [wrappedListener]
    let s1 : State :=
      { _listeners := setProp table eventName arr1, _maxListeners := s._maxListeners,
        warnings := s.warnings, calls := s.calls }
    let count := listenerCount s1 eventName
    if JSNumber.lt (getMaxListeners s1) (.fin count) then
      .ok { _listeners := s1._listeners, _maxListeners := s1._maxListeners,
            warnings := s1.warnings ++ [count], calls := s1.calls }
    else .ok s1

/-- The method `on` (index.js:14-17). -/
def «on» (eventName : EventName) (listener : Value) (s : State) : Except Value State :=
  _addListener eventName listener false false .null .null none s

/-- The method `once` (index.js:24-27). -/
def once (eventName : EventName) (listener : Value) (s : State) : Except Value State :=
  _addListener eventName listener true false .null .null none s

/-- The method `after` (index.js:29-31). -/
def after (eventName : EventName) (target listener : Value) (s : State) : Except Value State :=
  _addListener eventName listener false false target .null none s

/-- The method `before` (index.js:33-35). -/
def before (eventName : EventName) (target listener : Value) (s : State) : Except Value State :=
  _addListener eventName listener false false .null target none s

/-- The method `afterOnce` (index.js:37-39). -/
def afterOnce (eventName : EventName) (target listener : Value) (s : State) :
    Except Value State :=
  _addListener eventName listener true false target .null none s

/-- The method `beforeOnce` (index.js:41-43). -/
def beforeOnce (eventName : EventName) (target listener : Value) (s : State) :
    Except Value State :=
  _addListener eventName listener true false .null target none s

/-- The method `prependListener` (index.js:45-47). -/
def prependListener (eventName : EventName) (listener : Value) (s : State) :
    Except Value State :=
  _addListener eventName listener false true .null .null none s

/-- The method `prependOnceListener` (index.js:49-51). -/
def prependOnceListener (eventName : EventName) (listener : Value) (s : State) :
    Except Value State :=
  _addListener eventName listener true true .null .null none s

/-! ## Removal -/

/-- The read `this._listeners[eventName].listener` of index.js:184: the property
`listener` of the array itself, not of one of its elements. An array has no
such property, so the read gives `undefined`. -/
def arrayListenerProperty (_arr : List Wrapped) : Value := .undefined

/-- The loop of `removeListener` (index.js:183-188), from index `i`, with
`fuel` the number of indices left below the length of the array. -/
def removeListenerLoop (listener : Value) (arr : List Wrapped) : Nat → Nat → List Wrapped
  | 0, _ => arr
  | fuel + 1, i =>
    if strictEquals listener (arrayListenerProperty arr) then splice arr i 1 []
    else removeListenerLoop listener arr fuel (i + 1)

/-- The method `removeListener` (index.js:181-191). -/
def removeListener (eventName : EventName) (listener : Value) (s : State) : State :=
  if listenerCount s eventName ≠ 0 then
    let arr := listenersOf s eventName
    { _listeners := setProp s._listeners eventName (removeListenerLoop listener arr arr.length 0),
      _maxListeners := s._maxListeners, warnings := s.warnings, calls := s.calls }
  else s

/-- The method `off` (index.js:19-22). -/
def off (eventName : EventName) (listener : Value) (s : State) : State :=
  removeListener eventName listener s

/-- The method `removeAllListeners` (index.js:172-179); `none` is the call
without an argument. -/
def removeAllListeners (eventName : Option EventName) (s : State) : State :=
  match eventName with
  | none =>
    { _listeners := [], _maxListeners := s._maxListeners, warnings := s.warnings, calls := s.calls }
  | some e =>
    if listenerCount s e ≠ 0 then
      { _listeners := setProp s._listeners e [], _maxListeners := s._maxListeners,
        warnings := s.warnings, calls := s.calls }
    else s

/-- The method `eventNames` (index.js:193-195): the keys of the model table, in
the order in which they were added. `Object.keys` gives the same names with
two differences, which the list does not show: it puts integer-like keys
first, and it omits `__proto__` when `_listeners` is the plain object that
`removeAllListeners()` installs (index.js:174), where that name is not an own
key. What is stated of this list is membership of names other than
`__proto__`, or its equality between two states that hold the same keys. -/
def eventNames (s : State) : List EventName :=
  s._listeners.map Prod.fst

/-! ## Listener bodies -/

/-- A registry operation performed by the body of a listener while it runs. -/
inductive Effect
  | addListener (eventName : EventName) (listener : Nat) (once prepend : Bool)
      (after before : Value) (index : Option Int)
  | removeListener (eventName : EventName) (listener : Value)
  | removeAllListeners (eventName : Option EventName)
  deriving DecidableEq

/-- The way a call of a raw listener completes, as the wrapper that awaits it
sees it: `returns` is a normal return (a plain value or a promise that is
fulfilled), `throws e` a synchronous `throw`, `rejects e` the return of a
promise that is rejected with `e`. Every call completes: a promise that never
settles is outside the model. -/
inductive Completion
  | returns
  | throws (error : Value)
  | rejects (error : Value)
  deriving DecidableEq

/-- What one call of a raw listener does: its registry operations, in order,
and then its completion. -/
structure Behaviour where
  effects : List Effect
  completion : Completion
  deriving DecidableEq

/-- The user code: the behaviour of the function with the given reference when
it is called with the given arguments. -/
abbrev Program := Nat → List Value → Behaviour

/-- One registry operation of a listener body, on the emitter it is bound to. -/
def applyEffect (s : State) : Effect → State
  | .addListener eventName listener once prepend after before index =>
    match _addListener eventName (.function listener) once prepend after before index s with
    | .ok s1 => s1
    | .error _ => s
  | .removeListener eventName listener => removeListener eventName listener s
  | .removeAllListeners eventName => removeAllListeners eventName s

/-- The call `this.listener.call(this.target, ...args)` of index.js:128 and 151:
the call is logged, the body performs its registry operations and completes. -/
def callRaw (code : Program) (listener : Nat) (args : List Value) (s : State) :
    Completion × State :=
  let logged : State :=
    { _listeners := s._listeners, _maxListeners := s._maxListeners, warnings := s.warnings,
      calls := s.calls ++ [(listener, args)] }
  ((code listener args).completion, (code listener args).effects.foldl applyEffect logged)

/-! ## Wrapped listeners and dispatch -/

/-- The error of the runtime when `emit` calls `this._listeners[eventName][i]`
and there is no function there. -/
def notAFunction : Value := .error "TypeError" none

/-- The guard `this.once && this.fired` of index.js:123 and 147. -/
def Wrapped.spent (ctx : Wrapped) : Bool := ctx.once && ctx.fired

/-- The context after the assignment `this.fired = true` of index.js:127 and 150. -/
def Wrapped.fire (ctx : Wrapped) : Wrapped :=
  { listener := ctx.listener, once := ctx.once, fired := true }

/-- The head shared by the two wrapper functions (index.js:123-127 and
147-150): a `once` context that has fired returns at once; otherwise `fired`
is set and the rest of the function, `rest`, runs. `commit` is the write of
the context object: for an entry of the registry it stores the context at its
place in the table, for a wrapped function held by the caller it leaves the
state alone. The result carries the context as the call leaves it. -/
def Wrapped.invoke (rest : Nat → List Value → State → Settled × State)
    (commit : Wrapped → State → State) (ctx : Wrapped) (args : List Value) (s : State) :
    Wrapped × Settled × State :=
  if ctx.spent then (ctx, .fulfilled, s)
  else (ctx.fire, rest ctx.listener args (commit ctx.fire s))

/-- The write of a context object that is element `i` of the array of `eventName`. -/
def storeAt (eventName : EventName) (i : Nat) (ctx : Wrapped) (s : State) : State :=
  match getProp s._listeners eventName with
  | some arr =>
    { _listeners := setProp s._listeners eventName (arr.set i ctx),
      _maxListeners := s._maxListeners, warnings := s.warnings, calls := s.calls }
  | none => s

/-- The awaited call `this._listeners[eventName][i](...args)` of index.js:167,
for wrapped functions whose part after `this.fired = true` is `rest`. -/
def invokeAt (rest : Nat → List Value → State → Settled × State) (eventName : EventName)
    (i : Nat) (args : List Value) (s : State) : Settled × State :=
  match getProp s._listeners eventName with
  | none => (.rejected notAFunction, s)
  | some arr =>
    match arr[i]? with
    | none => (.rejected notAFunction, s)
    | some ctx => (Wrapped.invoke rest (storeAt eventName i) ctx args s).2

/-- The loop of `emit` (index.js:166-168) from index `i`, with `remaining`
the number of indices left below the count read at the start of the call. -/
def emitLoop (rest : Nat → List Value → State → Settled × State) (eventName : EventName)
    (args : List Value) : Nat → Nat → State → Settled × State
  | 0, _, s => (.fulfilled, s)
  | remaining + 1, i, s =>
    match invokeAt rest eventName i args s with
    | (.fulfilled, s1) => emitLoop rest eventName args remaining (i + 1) s1
    | (.rejected e, s1) => (.rejected e, s1)

/-- The body of `emit` (index.js:163-170) over wrapped functions whose part
after `this.fired = true` is `rest`. -/
def emitWith (rest : Nat → List Value → State → Settled × State) (eventName : EventName)
    (args : List Value) (s : State) : Settled × State :=
  let count := listenerCount s eventName
  if count > 0 then emitLoop rest eventName args count 0 s else (.fulfilled, s)

/-- The function returned by `_wrapErrorListener`, after `this.fired = true`
(index.js:151): the result of the raw listener is returned, nothing is caught. -/
def _wrapErrorListener.call (code : Program) (listener : Nat) (args : List Value) (s : State) :
    Settled × State :=
  match callRaw code listener args s with
  | (.returns, s1) => (.fulfilled, s1)
  | (.throws e, s1) => (.rejected e, s1)
  | (.rejects e, s1) => (.rejected e, s1)

/-- The function returned by `_wrapListener`, after `this.fired = true`
(index.js:128-135). The result of the raw listener is returned without being
awaited inside the `try`, so only a synchronous `throw` reaches the `catch`;
a rejected promise becomes the result of the wrapper. The `catch` awaits
`emit('listener-error', error)`, whose entries are made by `_wrapErrorListener`. -/
def _wrapListener.call (code : Program) (listener : Nat) (args : List Value) (s : State) :
    Settled × State :=
  match callRaw code listener args s with
  | (.returns, s1) => (.fulfilled, s1)
  | (.rejects e, s1) => (.rejected e, s1)
  | (.throws e, s1) =>
    if listenerCount s1 "listener-error" > 0 then
      emitWith (_wrapErrorListener.call code) "listener-error" [e] s1
    else (.rejected e, s1)

/-- The method `emit` (index.js:163-170): the entries of `'listener-error'` are
made by `_wrapErrorListener`, all others by `_wrapListener` (index.js:66-68). -/
def emit (code : Program) (eventName : EventName) (args : List Value) (s : State) :
    Settled × State :=
  emitWith
    (if eventName = "listener-error" then _wrapErrorListener.call code else _wrapListener.call code)
    eventName args s

/-- Successive calls of `emit` on one event, each awaited, one per argument
list: the settlements in order and the final state. -/
def emitEach (code : Program) (eventName : EventName) :
    List (List Value) → State → List Settled × State
  | [], s => ([], s)
  | args :: more, s =>
    let r := emit code eventName args s
    let rs := emitEach code eventName more r.2
    (r.1 :: rs.1, rs.2)

/-- Successive calls of one wrapped function held by its caller, one per
argument list: the context at the end, the settlements in order, the final state. -/
def Wrapped.invokeEach (rest : Nat → List Value → State → Settled × State)
    (commit : Wrapped → State → State) :
    Wrapped → List (List Value) → State → Wrapped × List Settled × State
  | ctx, [], s => (ctx, [], s)
  | ctx, args :: more, s =>
    let r := Wrapped.invoke rest commit ctx args s
    let rs := Wrapped.invokeEach rest commit r.1 more r.2.2
    (rs.1, r.2.1 :: rs.2.1, rs.2.2)

/-- The state reached from `s` by a sequence of registrations that all succeed
(`none` if one of them throws). -/
def register (s : State) : List (State → Except Value State) → Option State
  | [] => some s
  | op :: ops =>
    match op s with
    | .ok s1 => register s1 ops
    | .error _ => none

/-! ## Scenarios

The listeners of index.test.js, as a program: function 3 throws the error
object 100 synchronously, function 5 is an `async` function that throws it (the
promise it returns is rejected with it), every other function returns normally.
None of them touches the registry. -/

/-- The program of the scenarios. -/
def sampleCode : Program := fun ref _ =>
  if ref = 3 then ⟨[], .throws (.object 100)⟩
  else if ref = 5 then ⟨[], .rejects (.object 100)⟩
  else ⟨[], .returns⟩

/-- Three listeners registered with `on` for `'event-1'` (index.test.js:85-93). -/
def threeListeners : State :=
  (register create [«on» "event-1" (.function 1), «on» "event-1" (.function 2),
    «on» "event-1" (.function 4)]).getD create

/-- Four listeners for `'event-3'`, the third of which throws (index.test.js:114-125). -/
def thirdThrows : State :=
  (register create [«on» "event-3" (.function 1), «on» "event-3" (.function 2),
    «on» "event-3" (.function 3), «on» "event-3" (.function 4)]).getD create

/-- A listener for `'listener-error'` and a throwing listener for `'event-4'`
(index.test.js:149-155). -/
def redirected : State :=
  (register create [«on» "listener-error" (.function 10),
    «on» "event-4" (.function 3)]).getD create

/-- A listener for `'listener-error'` and, for `'event-4'`, an `async` listener
whose promise is rejected. -/
def asyncFailure : State :=
  (register create [«on» "listener-error" (.function 10),
    «on» "event-4" (.function 5)]).getD create

/-- One listener registered with `once` (index.test.js:233-235). -/
def onceOnly : State :=
  (register create [once "event" (.function 1)]).getD create

/-- Two listeners, functions 1 and 2, registered with `on` for `'event'`
(index.test.js:308-309). -/
def twoListeners : State :=
  (register create [«on» "event" (.function 1), «on» "event" (.function 2)]).getD create

/-- Three listeners, functions 1, 2 and 4, registered with `on` for `'event'`. -/
def abc : State :=
  (register create [«on» "event" (.function 1), «on» "event" (.function 2),
    «on» "event" (.function 4)]).getD create

/-! ## The positioning rule

The rule by which `_addListener` places a listener, stated on its own: which
strategy applies to a combination of options, and where each strategy inserts. -/

/-- The positioning strategies of a registration. -/
inductive Strategy
  | prepend
  | explicitIndex (i : Int)
  | target
  | append
  deriving DecidableEq

/-- The strategy that decides: `prepend` first, then an explicit index, then a
target (`after` or `before` is given), and appending otherwise. -/
def strategyFor (prepend : Bool) (after before : Value) (index : Option Int) : Strategy :=
  if prepend then .prepend
  else match index with
    | some i => .explicitIndex i
    | none => if after.truthy || before.truthy then .target else .append

/-- The position at which a strategy inserts into `arr`: 0 for `prepend`; the
explicit index, counted from the end when negative and clamped to the array;
for a target, the position of the first entry whose raw listener is `after` or
`before`, plus one when `after` is given, and the end when no entry matches;
the end for `append`. -/
def positionFor (arr : List Wrapped) (after before : Value) : Strategy → Nat
  | .prepend => 0
  | .explicitIndex i => if i < 0 then ((arr.length : Int) + i).toNat else min i.toNat arr.length
  | .target =>
    match arr.findIdx? (fun w => decide (Value.function w.listener = after)
        || decide (Value.function w.listener = before)) with
    | some j => if after.truthy then j + 1 else j
    | none => arr.length
  | .append => arr.length

/-! ## The threshold and introspection -/

/-- The operator `typeof`. -/
def Value.typeof : Value → String
  | .undefined => "undefined"
  | .null => "object"
  | .boolean _ => "boolean"
  | .number _ => "number"
  | .string _ => "string"
  | .function _ => "function"
  | .object _ => "object"
  | .error _ _ => "object"

/-- The function `Number.isNaN` on a number. -/
def JSNumber.isNaN : JSNumber → Bool
  | .nan => true
  | _ => false

/-- The error built by `setMaxListeners` (index.js:214-215). -/
def outOfRange : Value := .error "RangeError" (some "ERR_OUT_OF_RANGE")

/-- The method `setMaxListeners` (index.js:212-219). The test
`typeof n !== 'number' || n < 0 || Number.isNaN(n)` is the match on `n`
followed by the two tests on the number. -/
def setMaxListeners (n : Value) (s : State) : Except Value State :=
  match n with
  | .number x =>
    if JSNumber.lt x (.fin 0) || x.isNaN then .error outOfRange
    else .ok { _listeners := s._listeners, _maxListeners := some x, warnings := s.warnings,
               calls := s.calls }
  | _ => .error outOfRange

/-- The emitter after a call of a method that may throw: the state that the
call returns or, when it throws, the state as the `throw` leaves it. The only
statement of `_addListener` and of `setMaxListeners` that throws comes first
(index.js:54 and 213-217), before any write, so that state is the one before
the call. -/
def afterCall (s : State) : Except Value State → State
  | .ok s1 => s1
  | .error _ => s

/-- An element of the array that `rawListeners` builds: a value, or the array
of the event itself, which index.js:204 pushes. -/
inductive RawItem
  | value (v : Value)
  | array (arr : List Wrapped)
  deriving DecidableEq

/-- The read `this._listeners[eventName].once` of index.js:203: the property
`once` of the array itself, not of one of its elements. An array has no such
property, so the read gives `undefined`. -/
def arrayOnceProperty (_arr : List Wrapped) : Value := .undefined

/-- The loop of `rawListeners` (index.js:202-208), with `fuel` the number of
indices left below the length of the array, and `raw` the array built so far. -/
def rawListenersLoop (arr : List Wrapped) : Nat → List RawItem → List RawItem
  | 0, raw => raw
  | fuel + 1, raw =>
    if (arrayOnceProperty arr).truthy then rawListenersLoop arr fuel (raw ++ [.array arr])
    else rawListenersLoop arr fuel (raw ++ [.value (arrayListenerProperty arr)])

/-- The method `rawListeners` (index.js:197-210). -/
def rawListeners (eventName : EventName) (s : State) : List RawItem :=
  match getProp s._listeners eventName with
  | none => []
  | some arr => rawListenersLoop arr arr.length []

/-- The arguments of one call of `_addListener` with a callable listener. -/
structure Registration where
  eventName : EventName
  listener : Nat
  once : Bool
  prepend : Bool
  after : Value
  before : Value
  index : Option Int

/-- The call of `_addListener` with the given arguments. -/
def Registration.run (r : Registration) (s : State) : Except Value State :=
  _addListener r.eventName (.function r.listener) r.once r.prepend r.after r.before r.index s

/-- The eight public registration methods of index.js:14-51, each with an
event name, a target and a listener; the four methods without a target ignore it. -/
def registrationMethods : List (EventName → Value → Value → State → Except Value State) :=
  [fun e _ l => «on» e l, fun e _ l => once e l, fun e _ l => prependListener e l,
    fun e _ l => prependOnceListener e l, after, before, afterOnce, beforeOnce]

/-- The calls `this._listeners[eventName][i](...args)` for the indices of a
list, each awaited before the next, up to the first one that is rejected. -/
def invokeIndices (rest : Nat → List Value → State → Settled × State) (eventName : EventName)
    (args : List Value) : List Nat → State → Settled × State
  | [], s => (.fulfilled, s)
  | i :: more, s =>
    match invokeAt rest eventName i args s with
    | (.fulfilled, s1) => invokeIndices rest eventName args more s1
    | (.rejected e, s1) => (.rejected e, s1)

/-- The raw listeners and `once` flags of the table, event by event: what is
stored, without the `fired` flags. -/
def stored (t : Table) : List (EventName × List (Nat × Bool)) :=
  t.map (fun p => (p.1, p.2.map (fun w => (w.listener, w.once))))

/-! ## More scenarios

A second program: function 3 throws the error object 100, function 6 throws
the error object 200, function 20 registers function 21 for `'event'` with
`on` and returns, every other function returns normally. -/

/-- The program of the second scenarios. -/
def busyCode : Program := fun ref _ =>
  if ref = 3 then ⟨[], .throws (.object 100)⟩
  else if ref = 6 then ⟨[], .throws (.object 200)⟩
  else if ref = 20 then ⟨[.addListener "event" 21 false false .null .null none], .returns⟩
  else ⟨[], .returns⟩

/-- A threshold of 0 set on a new emitter (`setMaxListeners(0)`). -/
def zeroThreshold : State :=
  afterCall create (setMaxListeners (.number (.fin 0)) create)

/-- Three listeners for `'listener-error'`, the second of which throws the
error object 200, and a listener for `'event-4'` that throws the error object 100. -/
def errorListenerThrows : State :=
  (register create [«on» "listener-error" (.function 10), «on» "listener-error" (.function 6),
    «on» "listener-error" (.function 12), «on» "event-4" (.function 3)]).getD create

/-- Three listeners for `'event'`, the second of which registers another one. -/
def appendsWhileDispatched : State :=
  (register create [«on» "event" (.function 1), «on» "event" (.function 20),
    «on» "event" (.function 2)]).getD create

/-! ## Dispatch with redirection

The calls of raw listeners that a dispatch with a populated error channel is
expected to make, as a recursion on the array of the event alone. -/

/-- The calls expected from the dispatch of the entries `seq` with the
arguments `args`, while `errs` is the array of `'listener-error'`: each entry
is called, and when it throws `E` the live entries of `errs` are called with
`E` as only argument, after which they have all fired. -/
def dispatchCalls (code : Program) (args : List Value) :
    List Wrapped → List Wrapped → List (Nat × List Value)
  | [], _ => []
  | w :: more, errs =>
    (w.listener, args) ::
      match (code w.listener args).completion with
      | .throws E =>
        (errs.filter (fun h => !h.spent)).map (fun h => (h.listener, [E]))
          ++ dispatchCalls code args more (errs.map Wrapped.fire)
      | _ => dispatchCalls code args more errs

/-- A listener for `'listener-error'` and five listeners for `'event'`, the
second and the fourth of which throw (under `busyCode`). -/
def twoThrow : State :=
  (register create [«on» "listener-error" (.function 10), «on» "event" (.function 1),
    «on» "event" (.function 3), «on» "event" (.function 2), «on» "event" (.function 6),
    «on» "event" (.function 4)]).getD create

/-- The listeners of `twoThrow`, with a `once` listener for `'listener-error'`
before the other one. -/
def twoThrowOnce : State :=
  (register twoThrow [prependOnceListener "listener-error" (.function 11)]).getD create

/-! ## The property table -/

theorem getProp_setProp_same (t : Table) (e : EventName) (v : List Wrapped) :
    getProp (setProp t e v) e = some v := by
  induction t with
  | nil => simp [setProp, getProp]
  | cons p t ih =>
    obtain ⟨k, x⟩ := p
    by_cases h : k = e <;> simp [setProp, getProp, h, ih]

theorem getProp_setProp_ne (t : Table) (e e1 : EventName) (v : List Wrapped) (h : e1 ≠ e) :
    getProp (setProp t e v) e1 = getProp t e1 := by
  induction t with
  | nil => simp [setProp, getProp, Ne.symm h]
  | cons p t ih =>
    obtain ⟨k, x⟩ := p
    by_cases hk : k = e
    · subst hk
      simp [setProp, getProp, Ne.symm h]
    · by_cases hk1 : k = e1
      · subst hk1
        simp [setProp, getProp, hk]
      · simp [setProp, getProp, hk, hk1, ih]

theorem setProp_setProp (t : Table) (e : EventName) (v v1 : List Wrapped) :
    setProp (setProp t e v) e v1 = setProp t e v1 := by
  induction t with
  | nil => simp [setProp]
  | cons p t ih =>
    obtain ⟨k, x⟩ := p
    by_cases h : k = e <;> simp [setProp, h, ih]

theorem setProp_of_getProp (t : Table) (e : EventName) (v : List Wrapped)
    (h : getProp t e = some v) : setProp t e v = t := by
  induction t with
  | nil => simp [getProp] at h
  | cons p t ih =>
    obtain ⟨k, x⟩ := p
    by_cases hk : k = e
    · simp [getProp, hk] at h
      simp [setProp, hk, h]
    · simp [getProp, hk] at h
      simp [setProp, hk, ih h]

theorem listenersOf_eq_of_getProp {s : State} {e : EventName} {arr : List Wrapped}
    (h : getProp s._listeners e = some arr) : listenersOf s e = arr := by
  simp [listenersOf, h]

theorem listenerCount_eq_length (s : State) (e : EventName) :
    listenerCount s e = (listenersOf s e).length := by
  unfold listenerCount listenersOf
  cases getProp s._listeners e <;> simp

/-! ## Insertion -/

theorem splice_insert (arr : List Wrapped) (n : Nat) (w : Wrapped) (h : n ≤ arr.length) :
    splice arr (n : Int) 0 [w] = arr.take n ++ w :: arr.drop n := by
  have h1 : (min (n : Int) (arr.length : Int)).toNat = n := by omega
  have h2 : ¬ ((n : Int) < 0) := by omega
  simp [splice, h1, h2]

theorem insertIdx_eq_take_drop (arr : List Wrapped) (n : Nat) (w : Wrapped)
    (h : n ≤ arr.length) : arr.insertIdx n w = arr.take n ++ w :: arr.drop n := by
  induction arr generalizing n with
  | nil =>
    have : n = 0 := by simpa using h
    subst this
    simp
  | cons a arr ih =>
    cases n with
    | zero => simp
    | succ n =>
      have hn : n ≤ arr.length := by simpa using h
      simp [List.insertIdx_succ_cons, ih n hn]

/-! ## Registration lemmas -/

theorem _addListener_function (e : EventName) (ref : Nat) (once prepend : Bool)
    (after before : Value) (index : Option Int) (s : State) :
    ∃ s1, _addListener e (.function ref) once prepend after before index s = .ok s1 ∧
      getProp s1._listeners e = some (splice (listenersOf s e)
        (addAt (listenersOf s e) prepend after before index) 0 [⟨ref, once, false⟩]) ∧
      (∀ e1, e1 ≠ e → getProp s1._listeners e1 = getProp s._listeners e1) ∧
      s1.calls = s.calls ∧ s1._maxListeners = s._maxListeners := by
  unfold _addListener
  simp only [_verifyListenerType, _wrapErrorListener, _wrapListener, ite_self]
  cases hg : getProp s._listeners e with
  | none =>
    simp only [Option.isSome_none, Bool.false_eq_true, ↓reduceIte, getProp_setProp_same,
      Option.getD_some, setProp_setProp, listenersOf, hg, Option.getD_none]
    split
    · exact ⟨_, rfl, by simp [getProp_setProp_same],
        fun e1 h1 => by simp [getProp_setProp_ne _ _ _ _ h1], rfl, rfl⟩
    · exact ⟨_, rfl, by simp [getProp_setProp_same],
        fun e1 h1 => by simp [getProp_setProp_ne _ _ _ _ h1], rfl, rfl⟩
  | some arr =>
    simp only [Option.isSome_some, ↓reduceIte, hg, Option.getD_some, listenersOf]
    split
    · exact ⟨_, rfl, by simp [getProp_setProp_same],
        fun e1 h1 => by simp [getProp_setProp_ne _ _ _ _ h1], rfl, rfl⟩
    · exact ⟨_, rfl, by simp [getProp_setProp_same],
        fun e1 h1 => by simp [getProp_setProp_ne _ _ _ _ h1], rfl, rfl⟩

theorem findIndex_of_none (p : Wrapped → Bool) (arr : List Wrapped)
    (h : ∀ w ∈ arr, p w = false) : findIndex p arr = -1 := by
  have : arr.findIdx? p = none := by simpa using h
  simp [findIndex, this]

theorem findIndex_of_first (p : Wrapped → Bool) (pre post : List Wrapped) (tgt : Wrapped)
    (hpre : ∀ w ∈ pre, p w = false) (htgt : p tgt = true) :
    findIndex p (pre ++ tgt :: post) = (pre.length : Int) := by
  have : (pre ++ tgt :: post).findIdx? p = some pre.length := by
    induction pre with
    | nil => simp [htgt]
    | cons a pre ih =>
      have ha : p a = false := hpre a (by simp)
      have := ih (fun w hw => hpre w (by simp [hw]))
      simp [ha, this]
  simp [findIndex, this]

theorem strictEquals_function (a : Nat) (v : Value) :
    strictEquals (.function a) v = decide (Value.function a = v) := by
  cases v with
  | number x => cases x <;> simp [strictEquals]
  | _ => simp [strictEquals]

theorem splice_insert_clamped (arr : List Wrapped) (z : Int) (w : Wrapped) :
    splice arr z 0 [w] =
      arr.insertIdx (if z < 0 then ((arr.length : Int) + z).toNat else min z.toNat arr.length) w := by
  have hstart : (if z < 0 then (max ((arr.length : Int) + z) 0).toNat
      else (min z (arr.length : Int)).toNat)
      = (if z < 0 then ((arr.length : Int) + z).toNat else min z.toNat arr.length) := by
    split <;> omega
  have hle : (if z < 0 then ((arr.length : Int) + z).toNat else min z.toNat arr.length)
      ≤ arr.length := by
    split <;> omega
  rw [insertIdx_eq_take_drop arr _ w hle]
  simp only [splice, hstart, Nat.zero_min, Nat.add_zero]
  simp

theorem registered_at (e : EventName) (ref : Nat) (once prepend : Bool)
    (after before : Value) (index : Option Int) (s : State) (n : Nat)
    (hat : addAt (listenersOf s e) prepend after before index = (n : Int))
    (hn : n ≤ (listenersOf s e).length) :
    ∃ s1, _addListener e (.function ref) once prepend after before index s = .ok s1 ∧
      listenersOf s1 e =
        (listenersOf s e).take n ++ ⟨ref, once, false⟩ :: (listenersOf s e).drop n := by
  obtain ⟨s1, h1, h2, _⟩ := _addListener_function e ref once prepend after before index s
  refine ⟨s1, h1, ?_⟩
  rw [listenersOf_eq_of_getProp h2, hat, splice_insert _ n _ hn]

theorem addAt_target_found (pre post : List Wrapped) (tgt : Wrapped) (after before : Value)
    (hgiven : (after.truthy || before.truthy) = true)
    (hmatch : Value.function tgt.listener = after ∨ Value.function tgt.listener = before)
    (hfirst : ∀ w ∈ pre, Value.function w.listener ≠ after ∧ Value.function w.listener ≠ before) :
    addAt (pre ++ tgt :: post) false after before none =
      if after.truthy then ((pre.length + 1 : Nat) : Int) else (pre.length : Int) := by
  have hfound := findIndex_of_first (fun wrpFn =>
      strictEquals (.function wrpFn.listener) after
        || strictEquals (.function wrpFn.listener) before) pre post tgt
    (fun w hw => by simp [strictEquals_function, (hfirst w hw).1, (hfirst w hw).2])
    (by simpa [strictEquals_function] using hmatch)
  have hne : ¬ ((pre.length : Int) = -1) := by omega
  simp only [addAt, Bool.false_eq_true, ↓reduceIte, hgiven, hfound, hne]
  split <;> simp

theorem addAt_target_missing (arr : List Wrapped) (after before : Value)
    (hnone : ∀ w ∈ arr, Value.function w.listener ≠ after ∧ Value.function w.listener ≠ before) :
    addAt arr false after before none = (arr.length : Int) := by
  have hfound := findIndex_of_none (fun wrpFn =>
      strictEquals (.function wrpFn.listener) after
        || strictEquals (.function wrpFn.listener) before) arr
    (fun w hw => by simp [strictEquals_function, (hnone w hw).1, (hnone w hw).2])
  simp only [addAt, Bool.false_eq_true, ↓reduceIte, hfound]
  split <;> rfl

theorem removeListenerLoop_function (ref : Nat) (arr : List Wrapped) (fuel i : Nat) :
    removeListenerLoop (.function ref) arr fuel i = arr := by
  induction fuel generalizing i with
  | zero => rfl
  | succ n ih => simp [removeListenerLoop, strictEquals, arrayListenerProperty, ih]

theorem removeListener_function (e : EventName) (ref : Nat) (s : State) :
    removeListener e (.function ref) s = s := by
  unfold removeListener
  split
  · rename_i h
    cases hg : getProp s._listeners e with
    | none => simp [listenerCount, hg] at h
    | some arr =>
      simp [removeListenerLoop_function, listenersOf, hg, setProp_of_getProp _ _ _ hg]
  · rfl

/-! ## Dispatch -/

theorem Wrapped.fire_of_spent (w : Wrapped) (h : w.spent = true) : w.fire = w := by
  cases w
  simp_all [Wrapped.spent, Wrapped.fire]

theorem getProp_storeAt_same (e : EventName) (i : Nat) (c : Wrapped) (s : State)
    (arr : List Wrapped) (hg : getProp s._listeners e = some arr) :
    getProp (storeAt e i c s)._listeners e = some (arr.set i c) := by
  simp [storeAt, hg, getProp_setProp_same]

theorem getProp_storeAt_ne (e e1 : EventName) (i : Nat) (c : Wrapped) (s : State)
    (h : e1 ≠ e) : getProp (storeAt e i c s)._listeners e1 = getProp s._listeners e1 := by
  unfold storeAt
  cases hg : getProp s._listeners e with
  | none => rfl
  | some arr => simp [getProp_setProp_ne _ _ _ _ h]

theorem calls_storeAt (e : EventName) (i : Nat) (c : Wrapped) (s : State) :
    (storeAt e i c s).calls = s.calls := by
  unfold storeAt
  cases getProp s._listeners e <;> rfl

theorem invokeAt_entry (rest : Nat → List Value → State → Settled × State) (e : EventName)
    (i : Nat) (args : List Value) (s : State) (arr : List Wrapped) (w : Wrapped)
    (hg : getProp s._listeners e = some arr) (hi : arr[i]? = some w) :
    invokeAt rest e i args s =
      if w.spent then (.fulfilled, s) else rest w.listener args (storeAt e i w.fire s) := by
  unfold invokeAt Wrapped.invoke
  simp only [hg, hi]
  split <;> rfl

theorem emitLoop_add (rest : Nat → List Value → State → Settled × State) (e : EventName)
    (args : List Value) (a b : Nat) : ∀ (i : Nat) (s : State),
    emitLoop rest e args (a + b) i s =
      match emitLoop rest e args a i s with
      | (.fulfilled, s1) => emitLoop rest e args b (i + a) s1
      | (.rejected err, s1) => (.rejected err, s1) := by
  induction a with
  | zero => intro i s; simp [emitLoop]
  | succ a ih =>
    intro i s
    have h : a + 1 + b = (a + b) + 1 := by omega
    rw [h]
    simp only [emitLoop]
    rcases hinv : invokeAt rest e i args s with ⟨r, s1⟩
    cases r with
    | fulfilled =>
      simp only [ih (i + 1) s1]
      have h2 : i + 1 + a = i + (a + 1) := by omega
      rw [h2]
    | rejected err => rfl

theorem emitLoop_plain (rest : Nat → List Value → State → Settled × State) (e : EventName)
    (args : List Value) (mid tail : List Wrapped)
    (hrest : ∀ w ∈ mid, ∀ s0 : State, ∃ s1, rest w.listener args s0 = (.fulfilled, s1) ∧
      s1._listeners = s0._listeners ∧ s1.calls = s0.calls ++ [(w.listener, args)]) :
    ∀ (pre : List Wrapped) (s : State), getProp s._listeners e = some (pre ++ mid ++ tail) →
    ∃ s1, emitLoop rest e args mid.length pre.length s = (.fulfilled, s1) ∧
      getProp s1._listeners e = some (pre ++ mid.map Wrapped.fire ++ tail) ∧
      (∀ e1, e1 ≠ e → getProp s1._listeners e1 = getProp s._listeners e1) ∧
      s1.calls = s.calls ++ (mid.filter (fun w => !w.spent)).map (fun w => (w.listener, args)) := by
  induction mid with
  | nil =>
    intro pre s hg
    exact ⟨s, by simp [emitLoop], by simpa using hg, fun _ _ => rfl, by simp⟩
  | cons w mid ih =>
    intro pre s hg
    have hi : (pre ++ w :: mid ++ tail)[pre.length]? = some w := by
      rw [List.append_assoc, List.getElem?_append_right (Nat.le_refl _)]
      simp
    have hstep := invokeAt_entry rest e pre.length args s _ w hg hi
    have ih1 := ih (fun x hx => hrest x (by simp [hx]))
    simp only [List.length_cons, emitLoop, hstep]
    by_cases hsp : w.spent = true
    · obtain ⟨s1, h1, h2, h3, h4⟩ := ih1 (pre ++ [w]) s (by simpa using hg)
      simp only [List.length_append, List.length_singleton] at h1
      refine ⟨s1, by simp [hsp, h1], ?_, h3, ?_⟩
      · simpa [Wrapped.fire_of_spent w hsp] using h2
      · simpa [hsp] using h4
    · obtain ⟨s0, hr, hl, hc⟩ := hrest w (by simp) (storeAt e pre.length w.fire s)
      have hg0 : getProp s0._listeners e = some ((pre ++ [w.fire]) ++ mid ++ tail) := by
        rw [hl, getProp_storeAt_same e _ _ s _ hg]
        simp
      obtain ⟨s1, h1, h2, h3, h4⟩ := ih1 (pre ++ [w.fire]) s0 hg0
      simp only [List.length_append, List.length_singleton] at h1
      refine ⟨s1, by simp [hsp, hr, h1], ?_, ?_, ?_⟩
      · simpa using h2
      · intro e1 he1
        rw [h3 e1 he1, hl, getProp_storeAt_ne e e1 _ _ s he1]
      · rw [h4, hc, calls_storeAt]
        simp [hsp]

theorem emitWith_plain (rest : Nat → List Value → State → Settled × State) (e : EventName)
    (args : List Value) (s : State)
    (hrest : ∀ w ∈ listenersOf s e, ∀ s0 : State, ∃ s1,
      rest w.listener args s0 = (.fulfilled, s1) ∧
      s1._listeners = s0._listeners ∧ s1.calls = s0.calls ++ [(w.listener, args)]) :
    ∃ s1, emitWith rest e args s = (.fulfilled, s1) ∧
      listenersOf s1 e = (listenersOf s e).map Wrapped.fire ∧
      (∀ e1, e1 ≠ e → getProp s1._listeners e1 = getProp s._listeners e1) ∧
      s1.calls = s.calls ++
        ((listenersOf s e).filter (fun w => !w.spent)).map (fun w => (w.listener, args)) := by
  unfold emitWith
  cases hg : getProp s._listeners e with
  | none =>
    exact ⟨s, by simp [listenerCount, hg], by simp [listenersOf, hg], fun _ _ => rfl,
      by simp [listenersOf, hg]⟩
  | some arr =>
    have hl : listenersOf s e = arr := listenersOf_eq_of_getProp hg
    rw [hl] at hrest
    obtain ⟨s1, h1, h2, h3, h4⟩ := emitLoop_plain rest e args arr [] hrest [] s (by simpa using hg)
    simp only [List.length_nil, List.nil_append, List.append_nil] at h1 h2
    refine ⟨s1, ?_, ?_, h3, ?_⟩
    · simp only [listenerCount, hg]
      split
      · exact h1
      · have : arr = [] := by
          cases arr with
          | nil => rfl
          | cons a arr => simp at *
        subst this
        simpa [emitLoop] using h1
    · rw [hl, listenersOf_eq_of_getProp h2]
    · rw [hl, h4]

theorem calls_applyEffect (s : State) (eff : Effect) : (applyEffect s eff).calls = s.calls := by
  cases eff with
  | addListener e l once prepend after before index =>
    obtain ⟨s1, h1, _, _, h4, _⟩ := _addListener_function e l once prepend after before index s
    simp [applyEffect, h1, h4]
  | removeListener e l =>
    simp only [applyEffect, removeListener]
    split <;> rfl
  | removeAllListeners e =>
    cases e with
    | none => rfl
    | some e =>
      simp only [applyEffect, removeAllListeners]
      split <;> rfl

theorem calls_foldl_applyEffect (effs : List Effect) (s : State) :
    (effs.foldl applyEffect s).calls = s.calls := by
  induction effs generalizing s with
  | nil => rfl
  | cons eff effs ih => simp [List.foldl, ih, calls_applyEffect]

theorem calls_callRaw (code : Program) (l : Nat) (args : List Value) (s : State) :
    (callRaw code l args s).2.calls = s.calls ++ [(l, args)] := by
  simp [callRaw, calls_foldl_applyEffect]

theorem callRaw_of_no_effects (code : Program) (l : Nat) (args : List Value) (s : State)
    (c : Completion) (h : code l args = ⟨[], c⟩) :
    callRaw code l args s = (c, ⟨s._listeners, s._maxListeners, s.warnings,
      s.calls ++ [(l, args)]⟩) := by
  simp [callRaw, h]

theorem wrapper_call_returns (code : Program) (e : EventName) (l : Nat) (args : List Value)
    (h : code l args = ⟨[], .returns⟩) (s0 : State) :
    ∃ s1, (if e = "listener-error" then _wrapErrorListener.call code
        else _wrapListener.call code) l args s0 = (.fulfilled, s1) ∧
      s1._listeners = s0._listeners ∧ s1.calls = s0.calls ++ [(l, args)] := by
  refine ⟨⟨s0._listeners, s0._maxListeners, s0.warnings, s0.calls ++ [(l, args)]⟩, ?_, rfl, rfl⟩
  split
  · simp [_wrapErrorListener.call, callRaw_of_no_effects code l args s0 _ h]
  · simp [_wrapListener.call, callRaw_of_no_effects code l args s0 _ h]

theorem emit_plain (code : Program) (e : EventName) (args : List Value) (s : State)
    (h : ∀ w ∈ listenersOf s e, code w.listener args = ⟨[], .returns⟩) :
    ∃ s1, emit code e args s = (.fulfilled, s1) ∧
      listenersOf s1 e = (listenersOf s e).map Wrapped.fire ∧
      (∀ e1, e1 ≠ e → getProp s1._listeners e1 = getProp s._listeners e1) ∧
      s1.calls = s.calls ++
        ((listenersOf s e).filter (fun w => !w.spent)).map (fun w => (w.listener, args)) :=
  emitWith_plain _ e args s (fun w hw s0 => wrapper_call_returns code e w.listener args (h w hw) s0)

theorem wrapListener_call_redirects (code : Program) (l : Nat) (args : List Value)
    (E : Value) (s : State) (errs : List Wrapped)
    (hthrow : code l args = ⟨[], .throws E⟩)
    (herrs : getProp s._listeners "listener-error" = some errs) (hpos : errs ≠ [])
    (hquiet : ∀ w ∈ errs, code w.listener [E] = ⟨[], .returns⟩) :
    ∃ s1, _wrapListener.call code l args s = (.fulfilled, s1) ∧
      getProp s1._listeners "listener-error" = some (errs.map Wrapped.fire) ∧
      (∀ e1, e1 ≠ "listener-error" → getProp s1._listeners e1 = getProp s._listeners e1) ∧
      s1.calls = s.calls ++ (l, args) ::
        (errs.filter (fun w => !w.spent)).map (fun w => (w.listener, [E])) := by
  have hlen : 0 < errs.length := List.length_pos.2 hpos
  obtain ⟨s1, h1, h2, h3, h4⟩ := emitLoop_plain (_wrapErrorListener.call code)
    "listener-error" [E] errs [] (fun w hw s0 => by
      simpa using wrapper_call_returns code "listener-error" w.listener [E] (hquiet w hw) s0)
    [] (⟨s._listeners, s._maxListeners, s.warnings, s.calls ++ [(l, args)]⟩ : State)
    (by simpa using herrs)
  refine ⟨s1, ?_, by simpa using h2, fun e1 he1 => by simpa using h3 e1 he1, by simp [h4]⟩
  simp only [_wrapListener.call, callRaw_of_no_effects code l args s _ hthrow, emitWith,
    listenerCount, herrs, hlen, ↓reduceIte]
  simpa using h1

theorem invokeEach_of_spent (rest : Nat → List Value → State → Settled × State)
    (commit : Wrapped → State → State) (ctx : Wrapped) (h : ctx.spent = true)
    (more : List (List Value)) (s : State) :
    Wrapped.invokeEach rest commit ctx more s = (ctx, more.map (fun _ => .fulfilled), s) := by
  induction more with
  | nil => rfl
  | cons a more ih => simp [Wrapped.invokeEach, Wrapped.invoke, h, ih]

theorem invokeEach_once (rest : Nat → List Value → State → Settled × State)
    (commit : Wrapped → State → State) (ctx : Wrapped) (args : List Value)
    (more : List (List Value)) (s : State) (honce : ctx.once = true)
    (hfresh : ctx.fired = false) :
    Wrapped.invokeEach rest commit ctx (args :: more) s =
      (ctx.fire, (rest ctx.listener args (commit ctx.fire s)).1 ::
        more.map (fun _ => Settled.fulfilled), (rest ctx.listener args (commit ctx.fire s)).2) := by
  have h1 : ctx.spent = false := by simp [Wrapped.spent, hfresh]
  have h2 : ctx.fire.spent = true := by simp [Wrapped.spent, Wrapped.fire, honce]
  simp [Wrapped.invokeEach, Wrapped.invoke, h1, invokeEach_of_spent rest commit _ h2]

theorem calls_invokeAt_error (code : Program) (e : EventName) (i : Nat) (args : List Value)
    (s : State) :
    ∃ added, (invokeAt (_wrapErrorListener.call code) e i args s).2.calls = s.calls ++ added := by
  cases hg : getProp s._listeners e with
  | none => exact ⟨[], by simp [invokeAt, hg]⟩
  | some arr =>
    cases hi : arr[i]? with
    | none => exact ⟨[], by simp [invokeAt, hg, hi]⟩
    | some w =>
      rw [invokeAt_entry _ e i args s arr w hg hi]
      by_cases hsp : w.spent = true
      · exact ⟨[], by simp [hsp]⟩
      · refine ⟨[(w.listener, args)], ?_⟩
        have hc := calls_callRaw code w.listener args (storeAt e i w.fire s)
        rw [calls_storeAt] at hc
        simp only [hsp, Bool.false_eq_true, ↓reduceIte, _wrapErrorListener.call]
        split <;> simp_all

theorem calls_emitLoop_error (code : Program) (e : EventName) (args : List Value)
    (remaining : Nat) : ∀ (i : Nat) (s : State),
    ∃ added, (emitLoop (_wrapErrorListener.call code) e args remaining i s).2.calls
      = s.calls ++ added := by
  induction remaining with
  | zero => intro i s; exact ⟨[], by simp [emitLoop]⟩
  | succ n ih =>
    intro i s
    obtain ⟨a1, h1⟩ := calls_invokeAt_error code e i args s
    simp only [emitLoop]
    rcases hinv : invokeAt (_wrapErrorListener.call code) e i args s with ⟨r, s1⟩
    rw [hinv] at h1
    cases r with
    | fulfilled =>
      obtain ⟨a2, h2⟩ := ih (i + 1) s1
      exact ⟨a1 ++ a2, by simp_all⟩
    | rejected err => exact ⟨a1, h1⟩

theorem calls_wrapListener_call (code : Program) (l : Nat) (args : List Value) (s : State) :
    ∃ added, (_wrapListener.call code l args s).2.calls = s.calls ++ (l, args) :: added := by
  have hc := calls_callRaw code l args s
  unfold _wrapListener.call
  rcases hr : callRaw code l args s with ⟨c, s1⟩
  rw [hr] at hc
  cases c with
  | returns => exact ⟨[], by simpa using hc⟩
  | rejects err => exact ⟨[], by simpa using hc⟩
  | throws err =>
    by_cases hpos : listenerCount s1 "listener-error" > 0
    · obtain ⟨a, ha⟩ := calls_emitLoop_error code "listener-error" [err]
        (listenerCount s1 "listener-error") 0 s1
      refine ⟨a, ?_⟩
      simp only [emitWith, hpos, ↓reduceIte, ha]
      simp_all
    · exact ⟨[], by simpa [hpos] using hc⟩

/-! ## Counting and validation -/

theorem length_splice_insert (arr : List Wrapped) (z : Int) (w : Wrapped) :
    (splice arr z 0 [w]).length = arr.length + 1 := by
  rw [splice_insert_clamped]
  apply List.length_insertIdx
  split <;> omega

theorem listenerCount_addListener (e : EventName) (ref : Nat) (once prepend : Bool)
    (after before : Value) (index : Option Int) (s : State) :
    ∃ s1, _addListener e (.function ref) once prepend after before index s = .ok s1 ∧
      ∀ e1, listenerCount s1 e1 = listenerCount s e1 + (if e = e1 then 1 else 0) := by
  obtain ⟨s1, h1, h2, h3, _⟩ := _addListener_function e ref once prepend after before index s
  refine ⟨s1, h1, fun e1 => ?_⟩
  by_cases he : e = e1
  · subst he
    simp only [↓reduceIte]
    rw [listenerCount_eq_length s1, listenerCount_eq_length s, listenersOf_eq_of_getProp h2,
      length_splice_insert]
  · simp only [he, ↓reduceIte, Nat.add_zero, listenerCount, h3 e1 (Ne.symm he)]

theorem typeof_eq_function (v : Value) : v.typeof = "function" ↔ ∃ ref, v = .function ref := by
  cases v <;> simp [Value.typeof]

theorem _addListener_error_iff (e : EventName) (listener : Value) (once prepend : Bool)
    (after before : Value) (index : Option Int) (s : State) :
    _addListener e listener once prepend after before index s = .error invalidArgType ↔
      listener.typeof ≠ "function" := by
  constructor
  · intro h hf
    obtain ⟨ref, rfl⟩ := (typeof_eq_function listener).1 hf
    obtain ⟨s1, h1, _⟩ := _addListener_function e ref once prepend after before index s
    rw [h1] at h
    cases h
  · intro h
    cases listener <;> first | rfl | simp [Value.typeof] at h

theorem rawListenersLoop_eq (arr : List Wrapped) (fuel : Nat) (raw : List RawItem) :
    rawListenersLoop arr fuel raw = raw ++ List.replicate fuel (.value .undefined) := by
  induction fuel generalizing raw with
  | zero => simp [rawListenersLoop]
  | succ n ih =>
    simp [rawListenersLoop, arrayOnceProperty, arrayListenerProperty, Value.truthy, ih,
      List.replicate_succ]

theorem mem_keys_of_getProp (t : Table) (e : EventName) (v : List Wrapped)
    (h : getProp t e = some v) : e ∈ t.map Prod.fst := by
  induction t with
  | nil => simp [getProp] at h
  | cons p t ih =>
    obtain ⟨k, x⟩ := p
    by_cases hk : k = e
    · simp [hk]
    · simp only [getProp, hk, ↓reduceIte] at h
      simp [ih h]

theorem keys_setProp_of_getProp (t : Table) (e : EventName) (v v1 : List Wrapped)
    (h : getProp t e = some v) : (setProp t e v1).map Prod.fst = t.map Prod.fst := by
  induction t with
  | nil => simp [getProp] at h
  | cons p t ih =>
    obtain ⟨k, x⟩ := p
    by_cases hk : k = e
    · simp [setProp, hk]
    · simp only [getProp, hk, ↓reduceIte] at h
      simp [setProp, hk, ih h]

theorem getProp_of_listenerCount_pos (s : State) (e : EventName) (h : listenerCount s e ≠ 0) :
    ∃ arr, getProp s._listeners e = some arr := by
  cases hg : getProp s._listeners e with
  | none => simp [listenerCount, hg] at h
  | some arr => exact ⟨arr, rfl⟩

theorem removeAllListeners_of_zero (s : State) (e : EventName) (h : listenerCount s e = 0) :
    removeAllListeners (some e) s = s := by
  simp [removeAllListeners, h]

theorem removeAllListeners_of_pos (s : State) (e : EventName) (h : listenerCount s e ≠ 0) :
    removeAllListeners (some e) s =
      ⟨setProp s._listeners e [], s._maxListeners, s.warnings, s.calls⟩ := by
  simp [removeAllListeners, h]

/-! ## What `emit` leaves in place -/

theorem stored_setProp (t : Table) (e : EventName) (arr arr1 : List Wrapped)
    (hg : getProp t e = some arr)
    (hsame : arr1.map (fun w => (w.listener, w.once)) = arr.map (fun w => (w.listener, w.once))) :
    stored (setProp t e arr1) = stored t := by
  induction t with
  | nil => simp [getProp] at hg
  | cons p t ih =>
    obtain ⟨k, x⟩ := p
    by_cases hk : k = e
    · simp only [getProp, hk, ↓reduceIte, Option.some.injEq] at hg
      subst hg
      simp [setProp, hk, stored, hsame]
    · simp only [getProp, hk, ↓reduceIte] at hg
      have := ih hg
      simp only [stored] at this
      simp [setProp, hk, stored, this]

theorem stored_storeAt (e : EventName) (i : Nat) (w : Wrapped) (s : State) (arr : List Wrapped)
    (hg : getProp s._listeners e = some arr) (hi : arr[i]? = some w) :
    stored (storeAt e i w.fire s)._listeners = stored s._listeners := by
  simp only [storeAt, hg]
  apply stored_setProp _ _ _ _ hg
  apply List.ext_getElem?
  intro j
  by_cases hj : j = i
  · subst hj
    have hlt : j < arr.length := by
      by_contra hge
      rw [List.getElem?_eq_none (by omega)] at hi
      cases hi
    have hw : arr[j] = w := by
      rw [List.getElem?_eq_getElem hlt] at hi
      exact Option.some.inj hi
    simp [List.getElem?_map, List.getElem?_set, hlt, Wrapped.fire, hw]
  · simp [List.getElem?_map, List.getElem?_set, Ne.symm hj]

theorem stored_invokeAt (rest : Nat → List Value → State → Settled × State)
    (hrest : ∀ l a s0, stored (rest l a s0).2._listeners = stored s0._listeners)
    (e : EventName) (i : Nat) (args : List Value) (s : State) :
    stored (invokeAt rest e i args s).2._listeners = stored s._listeners := by
  cases hg : getProp s._listeners e with
  | none => simp [invokeAt, hg]
  | some arr =>
    cases hi : arr[i]? with
    | none => simp [invokeAt, hg, hi]
    | some w =>
      rw [invokeAt_entry rest e i args s arr w hg hi]
      split
      · rfl
      · rw [hrest, stored_storeAt e i w s arr hg hi]

theorem stored_emitLoop (rest : Nat → List Value → State → Settled × State)
    (hrest : ∀ l a s0, stored (rest l a s0).2._listeners = stored s0._listeners)
    (e : EventName) (args : List Value) (n : Nat) : ∀ (i : Nat) (s : State),
    stored (emitLoop rest e args n i s).2._listeners = stored s._listeners := by
  induction n with
  | zero => intro i s; rfl
  | succ n ih =>
    intro i s
    have h1 := stored_invokeAt rest hrest e i args s
    simp only [emitLoop]
    rcases hinv : invokeAt rest e i args s with ⟨r, s1⟩
    rw [hinv] at h1
    cases r with
    | fulfilled => simp only [ih (i + 1) s1, h1]
    | rejected err => exact h1

theorem stored_emitWith (rest : Nat → List Value → State → Settled × State)
    (hrest : ∀ l a s0, stored (rest l a s0).2._listeners = stored s0._listeners)
    (e : EventName) (args : List Value) (s : State) :
    stored (emitWith rest e args s).2._listeners = stored s._listeners := by
  unfold emitWith
  simp only
  split
  · exact stored_emitLoop rest hrest e args _ 0 s
  · rfl

theorem listeners_callRaw (code : Program) (hcode : ∀ l a, (code l a).effects = [])
    (l : Nat) (a : List Value) (s : State) : (callRaw code l a s).2._listeners = s._listeners := by
  simp [callRaw, hcode]

theorem stored_wrapErrorListener_call (code : Program) (hcode : ∀ l a, (code l a).effects = [])
    (l : Nat) (a : List Value) (s : State) :
    stored (_wrapErrorListener.call code l a s).2._listeners = stored s._listeners := by
  have h := listeners_callRaw code hcode l a s
  unfold _wrapErrorListener.call
  split <;> simp_all

theorem stored_wrapListener_call (code : Program) (hcode : ∀ l a, (code l a).effects = [])
    (l : Nat) (a : List Value) (s : State) :
    stored (_wrapListener.call code l a s).2._listeners = stored s._listeners := by
  have h := listeners_callRaw code hcode l a s
  unfold _wrapListener.call
  split
  · simp_all
  · simp_all
  · rename_i err s1 hr
    rw [hr] at h
    simp only at h
    split
    · rw [stored_emitWith _ (stored_wrapErrorListener_call code hcode), h]
    · simp [h]

theorem stored_emit (code : Program) (hcode : ∀ l a, (code l a).effects = [])
    (e : EventName) (args : List Value) (s : State) :
    stored (emit code e args s).2._listeners = stored s._listeners := by
  unfold emit
  split
  · exact stored_emitWith _ (stored_wrapErrorListener_call code hcode) e args s
  · exact stored_emitWith _ (stored_wrapListener_call code hcode) e args s

theorem getProp_of_stored_eq (t t1 : Table) (h : stored t1 = stored t) (e : EventName) :
    (getProp t1 e).map (List.map (fun w => (w.listener, w.once)))
      = (getProp t e).map (List.map (fun w => (w.listener, w.once))) := by
  induction t generalizing t1 with
  | nil =>
    cases t1 with
    | nil => rfl
    | cons p t1 => simp [stored] at h
  | cons p t ih =>
    cases t1 with
    | nil => simp [stored] at h
    | cons p1 t1 =>
      obtain ⟨k, x⟩ := p
      obtain ⟨k1, x1⟩ := p1
      simp only [stored, List.map_cons, List.cons.injEq, Prod.mk.injEq] at h
      obtain ⟨⟨hk, hx⟩, ht⟩ := h
      subst hk
      by_cases hke : k1 = e
      · simp [getProp, hke, hx]
      · simp only [getProp, hke, ↓reduceIte]
        exact ih t1 (by simpa [stored] using ht)

theorem keys_of_stored_eq (t t1 : Table) (h : stored t1 = stored t) :
    t1.map Prod.fst = t.map Prod.fst := by
  have := congrArg (List.map Prod.fst) h
  simpa [stored, List.map_map, Function.comp_def] using this

theorem splice_insert_exists (arr : List Wrapped) (z : Int) (w : Wrapped) :
    ∃ n, n ≤ arr.length ∧ splice arr z 0 [w] = arr.take n ++ w :: arr.drop n := by
  have hle : (if z < 0 then ((arr.length : Int) + z).toNat else min z.toNat arr.length)
      ≤ arr.length := by
    split <;> omega
  exact ⟨_, hle, by rw [splice_insert_clamped, insertIdx_eq_take_drop _ _ _ hle]⟩

/-! ## Errors of the error channel -/

theorem filter_live_eq_self (l : List Wrapped) (h : ∀ w ∈ l, w.spent = false) :
    l.filter (fun w => !w.spent) = l := by
  rw [List.filter_eq_self]
  intro w hw
  simp [h w hw]

theorem errorChannel_rejects (code : Program) (args : List Value) (s : State)
    (pre post : List Wrapped) (H : Wrapped) (E : Value)
    (herrs : getProp s._listeners "listener-error" = some (pre ++ H :: post))
    (hpre : ∀ w ∈ pre, w.spent = false ∧ code w.listener args = ⟨[], .returns⟩)
    (hlive : H.spent = false)
    (hraise : code H.listener args = ⟨[], .throws E⟩ ∨ code H.listener args = ⟨[], .rejects E⟩) :
    ∃ s1, emitWith (_wrapErrorListener.call code) "listener-error" args s = (.rejected E, s1) ∧
      s1.calls = s.calls ++ (pre ++ [H]).map (fun w => (w.listener, args)) := by
  have hcount : listenerCount s "listener-error" = pre.length + (post.length + 1) := by
    simp [listenerCount, herrs]
  obtain ⟨s1, h1, h2, _, h4⟩ := emitLoop_plain (_wrapErrorListener.call code) "listener-error"
    args pre (H :: post) (fun w hw s0 => by
      simpa using wrapper_call_returns code "listener-error" w.listener args (hpre w hw).2 s0)
    [] s (by simpa using herrs)
  have hi : (pre.map Wrapped.fire ++ H :: post)[pre.length]? = some H := by
    rw [List.getElem?_append_right (by simp)]
    simp
  have hstep := invokeAt_entry (_wrapErrorListener.call code) "listener-error" pre.length args
    s1 _ H (by simpa using h2) hi
  have hcall : invokeAt (_wrapErrorListener.call code) "listener-error" pre.length args s1 =
      (.rejected E, ⟨(storeAt "listener-error" pre.length H.fire s1)._listeners,
        (storeAt "listener-error" pre.length H.fire s1)._maxListeners,
        (storeAt "listener-error" pre.length H.fire s1).warnings,
        (storeAt "listener-error" pre.length H.fire s1).calls ++ [(H.listener, args)]⟩) := by
    rw [hstep]
    simp only [hlive, Bool.false_eq_true, ↓reduceIte]
    rcases hraise with hr | hr <;>
      simp only [_wrapErrorListener.call, callRaw_of_no_effects code _ args _ _ hr]
  simp only [List.length_nil] at h1
  refine ⟨⟨(storeAt "listener-error" pre.length H.fire s1)._listeners,
    (storeAt "listener-error" pre.length H.fire s1)._maxListeners,
    (storeAt "listener-error" pre.length H.fire s1).warnings,
    (storeAt "listener-error" pre.length H.fire s1).calls ++ [(H.listener, args)]⟩, ?_, ?_⟩
  · unfold emitWith
    simp only [hcount]
    rw [if_pos (by omega), emitLoop_add]
    simp only [h1, Nat.zero_add, emitLoop, hcall]
  · simp [h4, filter_live_eq_self pre (fun w hw => (hpre w hw).1), calls_storeAt]

/-! ## The bound of the loop -/

theorem splice_append (arr : List Wrapped) (w : Wrapped) :
    splice arr (arr.length : Int) 0 [w] = arr ++ [w] := by
  rw [splice_insert arr arr.length w (Nat.le_refl _), List.take_length, List.drop_length]

theorem emitLoop_eq_invokeIndices (rest : Nat → List Value → State → Settled × State)
    (e : EventName) (args : List Value) (n : Nat) : ∀ (i : Nat) (s : State),
    emitLoop rest e args n i s = invokeIndices rest e args (List.range' i n) s := by
  induction n with
  | zero => intro i s; rfl
  | succ n ih =>
    intro i s
    simp only [emitLoop, List.range'_succ, invokeIndices]
    rcases invokeAt rest e i args s with ⟨r, s1⟩
    cases r with
    | fulfilled => exact ih (i + 1) s1
    | rejected err => rfl

theorem emitWith_eq_invokeIndices (rest : Nat → List Value → State → Settled × State)
    (e : EventName) (args : List Value) (s : State) :
    emitWith rest e args s = invokeIndices rest e args (List.range (listenerCount s e)) s := by
  unfold emitWith
  simp only [List.range_eq_range']
  split
  · exact emitLoop_eq_invokeIndices rest e args _ 0 s
  · rename_i h
    have h0 : listenerCount s e = 0 := by omega
    simp [h0, invokeIndices]

theorem wrapper_call_returns_effects (code : Program) (e : EventName) (l : Nat)
    (args : List Value) (effs : List Effect) (h : code l args = ⟨effs, .returns⟩) (s0 : State) :
    (if e = "listener-error" then _wrapErrorListener.call code
        else _wrapListener.call code) l args s0 =
      (.fulfilled, effs.foldl applyEffect
        ⟨s0._listeners, s0._maxListeners, s0.warnings, s0.calls ++ [(l, args)]⟩) := by
  split
  · simp [_wrapErrorListener.call, callRaw, h]
  · simp [_wrapListener.call, callRaw, h]

theorem emit_with_appending_listener (code : Program) (e : EventName) (args : List Value)
    (s : State) (pre post : List Wrapped) (A : Wrapped) (N : Nat) (once1 : Bool)
    (hseq : getProp s._listeners e = some (pre ++ A :: post))
    (hquiet : ∀ w ∈ pre ++ post, w.spent = false ∧ code w.listener args = ⟨[], .returns⟩)
    (hA : A.spent = false)
    (hcode : code A.listener args
      = ⟨[.addListener e N once1 false .null .null none], .returns⟩) :
    ∃ s1, emit code e args s = (.fulfilled, s1) ∧
      getProp s1._listeners e
        = some ((pre ++ A :: post).map Wrapped.fire ++ [⟨N, once1, false⟩]) ∧
      s1.calls = s.calls ++ (pre ++ A :: post).map (fun w => (w.listener, args)) := by
  have hcount : listenerCount s e = pre.length + (post.length + 1) := by
    simp [listenerCount, hseq]
  have hplain : ∀ w ∈ pre ++ post, ∀ s0 : State, ∃ s1,
      (if e = "listener-error" then _wrapErrorListener.call code
        else _wrapListener.call code) w.listener args s0 = (.fulfilled, s1) ∧
      s1._listeners = s0._listeners ∧ s1.calls = s0.calls ++ [(w.listener, args)] :=
    fun w hw s0 => wrapper_call_returns code e w.listener args (hquiet w hw).2 s0
  -- the listeners before `A`
  obtain ⟨s1, h1, h2, _, h4⟩ := emitLoop_plain _ e args pre (A :: post)
    (fun w hw => hplain w (by simp [hw])) [] s (by simpa using hseq)
  simp only [List.length_nil, List.nil_append] at h1 h2
  -- the call of `A`, which registers `N`
  have hi : (pre.map Wrapped.fire ++ A :: post)[pre.length]? = some A := by
    rw [List.getElem?_append_right (by simp)]
    simp
  have hstep := invokeAt_entry (if e = "listener-error" then _wrapErrorListener.call code
    else _wrapListener.call code) e pre.length args s1 _ A h2 hi
  have hstore : getProp (storeAt e pre.length A.fire s1)._listeners e
      = some (pre.map Wrapped.fire ++ A.fire :: post) := by
    rw [getProp_storeAt_same e _ _ s1 _ h2]
    simp
  obtain ⟨s2, g1, g2, _, g4, _⟩ := _addListener_function e N once1 false .null .null none
    (⟨(storeAt e pre.length A.fire s1)._listeners, (storeAt e pre.length A.fire s1)._maxListeners,
      (storeAt e pre.length A.fire s1).warnings,
      (storeAt e pre.length A.fire s1).calls ++ [(A.listener, args)]⟩ : State)
  have hlist : listenersOf (⟨(storeAt e pre.length A.fire s1)._listeners,
      (storeAt e pre.length A.fire s1)._maxListeners,
      (storeAt e pre.length A.fire s1).warnings,
      (storeAt e pre.length A.fire s1).calls ++ [(A.listener, args)]⟩ : State) e
      = pre.map Wrapped.fire ++ A.fire :: post := listenersOf_eq_of_getProp hstore
  have hg2 : getProp s2._listeners e
      = some ((pre.map Wrapped.fire ++ [A.fire]) ++ post ++ [⟨N, once1, false⟩]) := by
    rw [g2, hlist]
    have hat : addAt (pre.map Wrapped.fire ++ A.fire :: post) false .null .null none
        = (((pre.map Wrapped.fire ++ A.fire :: post).length : Nat) : Int) := by
      simp [addAt, Value.truthy]
    rw [hat, splice_append]
    simp
  have hcall : invokeAt (if e = "listener-error" then _wrapErrorListener.call code
      else _wrapListener.call code) e pre.length args s1 = (.fulfilled, s2) := by
    rw [hstep]
    simp only [hA, Bool.false_eq_true, ↓reduceIte]
    rw [wrapper_call_returns_effects code e A.listener args _ hcode]
    simp only [List.foldl, applyEffect, g1]
  -- the listeners after `A`
  obtain ⟨s3, k1, k2, _, k4⟩ := emitLoop_plain _ e args post [⟨N, once1, false⟩]
    (fun w hw => hplain w (by simp [hw])) (pre.map Wrapped.fire ++ [A.fire]) s2 hg2
  simp only [List.length_append, List.length_map, List.length_singleton] at k1
  refine ⟨s3, ?_, by simpa using k2, ?_⟩
  · unfold emit emitWith
    simp only [hcount]
    rw [if_pos (by omega), emitLoop_add]
    simp only [h1, Nat.zero_add, emitLoop, hcall, k1]
  · rw [k4, g4, calls_storeAt, h4,
      filter_live_eq_self pre (fun w hw => (hquiet w (by simp [hw])).1),
      filter_live_eq_self post (fun w hw => (hquiet w (by simp [hw])).1)]
    simp

/-! ## Redirection inside the dispatch -/

theorem behaviour_eq (b : Behaviour) (c : Completion) (heff : b.effects = [])
    (hc : b.completion = c) : b = ⟨[], c⟩ := by
  cases b
  simp_all

theorem wrapListener_call_step (code : Program) (l : Nat) (args : List Value) (s : State)
    (cur : List Wrapped)
    (heff : (code l args).effects = [])
    (hnr : ∀ E, (code l args).completion ≠ .rejects E)
    (herrs : getProp s._listeners "listener-error" = some cur) (hpos : cur ≠ [])
    (hquiet : ∀ h ∈ cur, ∀ a, code h.listener a = ⟨[], .returns⟩) :
    ∃ s1, _wrapListener.call code l args s = (.fulfilled, s1) ∧
      (∀ e1, e1 ≠ "listener-error" → getProp s1._listeners e1 = getProp s._listeners e1) ∧
      getProp s1._listeners "listener-error" = some
        (match (code l args).completion with
          | .throws _ => cur.map Wrapped.fire
          | _ => cur) ∧
      s1.calls = s.calls ++ (l, args) ::
        (match (code l args).completion with
          | .throws E => (cur.filter (fun h => !h.spent)).map (fun h => (h.listener, [E]))
          | _ => []) := by
  cases hc : (code l args).completion with
  | returns =>
    have hb := behaviour_eq _ _ heff hc
    refine ⟨⟨s._listeners, s._maxListeners, s.warnings, s.calls ++ [(l, args)]⟩, ?_,
      fun _ _ => rfl, herrs, rfl⟩
    simp [_wrapListener.call, callRaw_of_no_effects code l args s _ hb]
  | throws E =>
    have hb := behaviour_eq _ _ heff hc
    obtain ⟨s1, h1, h2, h3, h4⟩ := wrapListener_call_redirects code l args E s cur hb herrs hpos
      (fun w hw => hquiet w hw [E])
    exact ⟨s1, h1, h3, h2, h4⟩
  | rejects E => exact absurd hc (hnr E)

theorem emitLoop_redirecting (code : Program) (e : EventName) (args : List Value)
    (hne : e ≠ "listener-error") (mid tail : List Wrapped)
    (hmid : ∀ w ∈ mid, w.spent = false ∧ (code w.listener args).effects = [] ∧
      ∀ E, (code w.listener args).completion ≠ .rejects E) :
    ∀ (pre : List Wrapped) (s : State) (cur : List Wrapped),
    getProp s._listeners e = some (pre ++ mid ++ tail) →
    getProp s._listeners "listener-error" = some cur → cur ≠ [] →
    (∀ h ∈ cur, ∀ a, code h.listener a = ⟨[], .returns⟩) →
    ∃ s1, emitLoop (_wrapListener.call code) e args mid.length pre.length s = (.fulfilled, s1) ∧
      getProp s1._listeners e = some (pre ++ mid.map Wrapped.fire ++ tail) ∧
      s1.calls = s.calls ++ dispatchCalls code args mid cur := by
  induction mid with
  | nil =>
    intro pre s cur hg _ _ _
    exact ⟨s, by simp [emitLoop], by simpa using hg, by simp [dispatchCalls]⟩
  | cons w mid ih =>
    intro pre s cur hg herrs hpos hquiet
    obtain ⟨hlive, heff, hnr⟩ := hmid w (by simp)
    have hi : (pre ++ w :: mid ++ tail)[pre.length]? = some w := by
      rw [List.append_assoc, List.getElem?_append_right (Nat.le_refl _)]
      simp
    have hstep := invokeAt_entry (_wrapListener.call code) e pre.length args s _ w hg hi
    have herrs0 : getProp (storeAt e pre.length w.fire s)._listeners "listener-error"
        = some cur := by
      rw [getProp_storeAt_ne e "listener-error" _ _ s (Ne.symm hne), herrs]
    obtain ⟨s0, c1, c2, c3, c4⟩ := wrapListener_call_step code w.listener args
      (storeAt e pre.length w.fire s) cur heff hnr herrs0 hpos hquiet
    have hg0 : getProp s0._listeners e = some ((pre ++ [w.fire]) ++ mid ++ tail) := by
      rw [c2 e hne, getProp_storeAt_same e _ _ s _ hg]
      simp
    have hcur1 : (match (code w.listener args).completion with
        | .throws _ => cur.map Wrapped.fire
        | _ => cur) ≠ [] := by
      split <;> simpa using hpos
    have hquiet1 : ∀ h ∈ (match (code w.listener args).completion with
        | .throws _ => cur.map Wrapped.fire
        | _ => cur), ∀ a, code h.listener a = ⟨[], .returns⟩ := by
      split
      · intro h hh a
        obtain ⟨h0, hh0, rfl⟩ := List.mem_map.1 hh
        exact hquiet h0 hh0 a
      · exact hquiet
    obtain ⟨s1, k1, k2, k3⟩ := ih (fun x hx => hmid x (by simp [hx])) (pre ++ [w.fire]) s0 _
      hg0 c3 hcur1 hquiet1
    simp only [List.length_append, List.length_singleton] at k1
    refine ⟨s1, ?_, by simpa using k2, ?_⟩
    · simp only [List.length_cons, emitLoop, hstep, hlive, Bool.false_eq_true, ↓reduceIte, c1,
        k1]
    · rw [k3, c4, calls_storeAt]
      simp only [dispatchCalls]
      split <;> simp

theorem dispatchCalls_of_not_once (code : Program) (args : List Value) (errs : List Wrapped)
    (seq : List Wrapped) : ∀ cur : List Wrapped,
    cur.map (fun h => h.listener) = errs.map (fun h => h.listener) →
    (∀ h ∈ cur, h.once = false) →
    dispatchCalls code args seq cur = seq.flatMap (fun w => (w.listener, args) ::
      match (code w.listener args).completion with
      | .throws E => errs.map (fun h => (h.listener, [E]))
      | _ => []) := by
  induction seq with
  | nil => intro cur _ _; rfl
  | cons w seq ih =>
    intro cur hcur honce
    have hlive : cur.filter (fun h => !h.spent) = cur := by
      rw [List.filter_eq_self]
      intro h hh
      simp [Wrapped.spent, honce h hh]
    have hmap : ∀ E : Value, cur.map (fun h => (h.listener, [E]))
        = errs.map (fun h => (h.listener, [E])) := by
      intro E
      have := congrArg (List.map (fun l : Nat => (l, [E]))) hcur
      simpa [List.map_map, Function.comp_def] using this
    have ih1 := ih (cur.map Wrapped.fire)
      (by simpa [List.map_map, Function.comp_def, Wrapped.fire] using hcur)
      (by
        intro h hh
        obtain ⟨h0, hh0, rfl⟩ := List.mem_map.1 hh
        exact honce h0 hh0)
    have ih2 := ih cur hcur honce
    cases hc : (code w.listener args).completion with
    | throws E => simp [dispatchCalls, List.flatMap_cons, hc, hlive, hmap, ih1]
    | returns => simp [dispatchCalls, List.flatMap_cons, hc, ih2]
    | rejects E => simp [dispatchCalls, List.flatMap_cons, hc, ih2]

/-! ## Claims -/

/-- C1: if every entry stored for `e` is a non-once entry whose raw listener
returns normally and performs no registry operation, then every `emit` of a
series of awaited `emit(e, ...args)` calls is fulfilled, and each of them calls
the raw listeners once each, in the stored order, with exactly its argument
list; with no entry for `e` no listener is called. -/
theorem emit_calls_every_listener_in_order (code : Program) (e : EventName)
    (argss : List (List Value)) (s : State)
    (h : ∀ w ∈ listenersOf s e,
      w.once = false ∧ ∀ a ∈ argss, code w.listener a = ⟨[], .returns⟩) :
    (emitEach code e argss s).1 = argss.map (fun _ => Settled.fulfilled) ∧
    (emitEach code e argss s).2.calls =
      s.calls ++ argss.flatMap (fun a => (listenersOf s e).map (fun w => (w.listener, a))) := by
  induction argss generalizing s with
  | nil => simp [emitEach]
  | cons a argss ih =>
    obtain ⟨s1, h1, h2, _, h4⟩ :=
      emit_plain code e a s (fun w hw => (h w hw).2 a (by simp))
    have hlive : (listenersOf s e).filter (fun w => !w.spent) = listenersOf s e := by
      rw [List.filter_eq_self]
      intro w hw
      simp [Wrapped.spent, (h w hw).1]
    have hnext : ∀ w ∈ listenersOf s1 e,
        w.once = false ∧ ∀ b ∈ argss, code w.listener b = ⟨[], .returns⟩ := by
      intro w hw
      rw [h2] at hw
      obtain ⟨w0, hw0, rfl⟩ := List.mem_map.1 hw
      exact ⟨(h w0 hw0).1, fun b hb => (h w0 hw0).2 b (by simp [hb])⟩
    obtain ⟨ih1, ih2⟩ := ih s1 hnext
    simp only [emitEach, h1, ih1, ih2, h4, hlive, h2, List.map_cons, List.flatMap_cons,
      List.map_map, true_and, List.append_assoc]
    rfl

/-- C2: let the array of `e` be `pre ++ Lk :: post`, with no listener stored
for `'listener-error'`. If the listeners of `pre` are live, return normally and
leave the registry alone, and `Lk` is live and raises `E` (by a synchronous
`throw` or by a rejected promise), then `emit(e, ...args)` is rejected with
exactly `E`, and the raw listeners called are those of `pre` and then `Lk`, in
order: no listener of `post` is called. -/
theorem emit_stops_at_first_raising_listener (code : Program) (e : EventName)
    (args : List Value) (s : State) (pre post : List Wrapped) (Lk : Wrapped) (E : Value)
    (hseq : getProp s._listeners e = some (pre ++ Lk :: post))
    (herr : listenerCount s "listener-error" = 0)
    (hpre : ∀ w ∈ pre, w.spent = false ∧ code w.listener args = ⟨[], .returns⟩)
    (hlive : Lk.spent = false)
    (hraise : code Lk.listener args = ⟨[], .throws E⟩ ∨
      code Lk.listener args = ⟨[], .rejects E⟩) :
    (emit code e args s).1 = .rejected E ∧
    (emit code e args s).2.calls =
      s.calls ++ (pre ++ [Lk]).map (fun w => (w.listener, args)) := by
  have hne : e ≠ "listener-error" := by
    rintro rfl
    simp [listenerCount, hseq] at herr
  have hcount : listenerCount s e = pre.length + (post.length + 1) := by
    simp [listenerCount, hseq]
  obtain ⟨s1, h1, h2, h3, h4⟩ := emitLoop_plain (_wrapListener.call code) e args pre
    (Lk :: post) (fun w hw s0 => by
      simpa [hne] using wrapper_call_returns code e w.listener args (hpre w hw).2 s0)
    [] s (by simpa using hseq)
  have hfilter : pre.filter (fun w => !w.spent) = pre := by
    rw [List.filter_eq_self]
    intro w hw
    simp [(hpre w hw).1]
  have hi : (pre.map Wrapped.fire ++ Lk :: post)[pre.length]? = some Lk := by
    rw [List.getElem?_append_right (by simp)]
    simp
  have hstep := invokeAt_entry (_wrapListener.call code) e pre.length args s1 _ Lk
    (by simpa using h2) hi
  have herr1 : listenerCount (storeAt e pre.length Lk.fire s1) "listener-error" = 0 := by
    have := getProp_storeAt_ne e "listener-error" pre.length Lk.fire s1 (Ne.symm hne)
    simp only [listenerCount, this, h3 "listener-error" (Ne.symm hne)]
    simpa [listenerCount] using herr
  have hcall : invokeAt (_wrapListener.call code) e pre.length args s1 =
      (.rejected E, ⟨(storeAt e pre.length Lk.fire s1)._listeners,
        (storeAt e pre.length Lk.fire s1)._maxListeners,
        (storeAt e pre.length Lk.fire s1).warnings,
        (storeAt e pre.length Lk.fire s1).calls ++ [(Lk.listener, args)]⟩) := by
    rw [hstep]
    simp only [hlive, Bool.false_eq_true, ↓reduceIte]
    rcases hraise with hr | hr
    · simp only [_wrapListener.call, callRaw_of_no_effects code _ args _ _ hr]
      have : listenerCount (⟨(storeAt e pre.length Lk.fire s1)._listeners,
          (storeAt e pre.length Lk.fire s1)._maxListeners,
          (storeAt e pre.length Lk.fire s1).warnings,
          (storeAt e pre.length Lk.fire s1).calls ++ [(Lk.listener, args)]⟩ : State)
          "listener-error" = 0 := herr1
      simp [this]
    · simp only [_wrapListener.call, callRaw_of_no_effects code _ args _ _ hr]
  simp only [List.length_nil] at h1
  unfold emit emitWith
  simp only [hne, if_false, hcount]
  rw [if_pos (by omega), emitLoop_add]
  simp only [h1, Nat.zero_add, emitLoop, hcall, true_and]
  simp [h4, hfilter, calls_storeAt]

/-- C3: let `e` be an ordinary event whose array is `pre ++ L :: post`, and let
`'listener-error'` have at least one listener, all of them live, returning
normally and leaving the registry alone. If `L` is live and throws `E`
synchronously, and the other listeners of `e` are live and return normally,
then `emit(e, ...args)` is fulfilled, and right after the call of `L` every
listener of `'listener-error'` is called, in order, with `E` as its only
argument, before the dispatch of `e` goes on with `post`. -/
theorem emit_redirects_thrown_error (code : Program) (e : EventName) (args : List Value)
    (s : State) (pre post errs : List Wrapped) (L : Wrapped) (E : Value)
    (hne : e ≠ "listener-error")
    (hseq : getProp s._listeners e = some (pre ++ L :: post))
    (herrs : getProp s._listeners "listener-error" = some errs) (hpos : errs ≠ [])
    (hquiet : ∀ w ∈ errs, w.spent = false ∧ code w.listener [E] = ⟨[], .returns⟩)
    (hothers : ∀ w ∈ pre ++ post, w.spent = false ∧ code w.listener args = ⟨[], .returns⟩)
    (hlive : L.spent = false) (hthrow : code L.listener args = ⟨[], .throws E⟩) :
    (emit code e args s).1 = .fulfilled ∧
    (emit code e args s).2.calls =
      s.calls ++ pre.map (fun w => (w.listener, args)) ++ [(L.listener, args)]
        ++ errs.map (fun w => (w.listener, [E])) ++ post.map (fun w => (w.listener, args)) := by
  have hcount : listenerCount s e = pre.length + (1 + post.length) := by
    simp [listenerCount, hseq]
    omega
  have hplain : ∀ w ∈ pre ++ post, ∀ s0 : State, ∃ s1,
      _wrapListener.call code w.listener args s0 = (.fulfilled, s1) ∧
      s1._listeners = s0._listeners ∧ s1.calls = s0.calls ++ [(w.listener, args)] :=
    fun w hw s0 => by
      simpa [hne] using wrapper_call_returns code e w.listener args (hothers w hw).2 s0
  have hfilter : ∀ l : List Wrapped, (∀ w ∈ l, w.spent = false) →
      l.filter (fun w => !w.spent) = l := by
    intro l hl
    rw [List.filter_eq_self]
    intro w hw
    simp [hl w hw]
  -- the listeners before `L`
  obtain ⟨s1, h1, h2, h3, h4⟩ := emitLoop_plain (_wrapListener.call code) e args pre
    (L :: post) (fun w hw => hplain w (by simp [hw])) [] s (by simpa using hseq)
  simp only [List.length_nil, List.nil_append] at h1 h2
  -- the call of `L`, redirected to the error channel
  have hi : (pre.map Wrapped.fire ++ L :: post)[pre.length]? = some L := by
    rw [List.getElem?_append_right (by simp)]
    simp
  have hstep := invokeAt_entry (_wrapListener.call code) e pre.length args s1 _ L h2 hi
  have herrs1 : getProp (storeAt e pre.length L.fire s1)._listeners "listener-error"
      = some errs := by
    rw [getProp_storeAt_ne e "listener-error" _ _ s1 (Ne.symm hne),
      h3 "listener-error" (Ne.symm hne), herrs]
  obtain ⟨s2, g1, _, g3, g4⟩ := wrapListener_call_redirects code L.listener args E
    (storeAt e pre.length L.fire s1) errs hthrow herrs1 hpos (fun w hw => (hquiet w hw).2)
  have hg2 : getProp s2._listeners e = some ((pre.map Wrapped.fire ++ [L.fire]) ++ post ++ []) := by
    rw [g3 e hne, getProp_storeAt_same e _ _ s1 _ h2]
    simp
  -- the listeners after `L`
  obtain ⟨s3, k1, _, _, k4⟩ := emitLoop_plain (_wrapListener.call code) e args post []
    (fun w hw => hplain w (by simp [hw])) (pre.map Wrapped.fire ++ [L.fire]) s2 hg2
  simp only [List.length_append, List.length_map, List.length_singleton] at k1
  unfold emit emitWith
  simp only [hne, if_false, hcount]
  rw [if_pos (by omega), emitLoop_add]
  simp only [h1, Nat.zero_add]
  rw [Nat.add_comm 1 post.length]
  simp only [emitLoop, hstep, hlive, Bool.false_eq_true, ↓reduceIte, g1, k1, true_and]
  rw [k4, g4, calls_storeAt, h4, hfilter pre (fun w hw => (hothers w (by simp [hw])).1),
    hfilter errs (fun w hw => (hquiet w hw).1),
    hfilter post (fun w hw => (hothers w (by simp [hw])).1)]
  simp


theorem emit_calls_every_listener_in_order_witness :
    (emitEach sampleCode "event-1" [[.number (.fin 1), .number (.fin 2)], []]
        threeListeners).1 = [.fulfilled, .fulfilled] ∧
    (emitEach sampleCode "event-1" [[.number (.fin 1), .number (.fin 2)], []]
        threeListeners).2.calls =
      [(1, [.number (.fin 1), .number (.fin 2)]), (2, [.number (.fin 1), .number (.fin 2)]),
        (4, [.number (.fin 1), .number (.fin 2)]), (1, []), (2, []), (4, [])] :=
  ⟨(emit_calls_every_listener_in_order sampleCode "event-1" _ threeListeners
      (by decide)).1.trans (by decide),
    (emit_calls_every_listener_in_order sampleCode "event-1" _ threeListeners
      (by decide)).2.trans (by decide)⟩

theorem emit_stops_at_first_raising_listener_witness :
    (emit sampleCode "event-3" [] thirdThrows).1 = .rejected (.object 100) ∧
    (emit sampleCode "event-3" [] thirdThrows).2.calls = [(1, []), (2, []), (3, [])] :=
  emit_stops_at_first_raising_listener sampleCode "event-3" [] thirdThrows
    [⟨1, false, false⟩, ⟨2, false, false⟩] [⟨4, false, false⟩] ⟨3, false, false⟩ (.object 100)
    (by decide) (by decide) (by decide) (by decide) (by decide)

theorem emit_redirects_thrown_error_witness :
    (emit sampleCode "event-4" [] redirected).1 = .fulfilled ∧
    (emit sampleCode "event-4" [] redirected).2.calls = [(3, []), (10, [.object 100])] :=
  emit_redirects_thrown_error sampleCode "event-4" [] redirected [] [] [⟨10, false, false⟩]
    ⟨3, false, false⟩ (.object 100) (by decide) (by decide) (by decide) (by decide)
    (by decide) (by decide) (by decide) (by decide)

/-- C4, the code at the failing input: with a listener on `'listener-error'`,
an `async` listener of `'event-4'` whose promise is rejected with the error
object 100 makes `emit('event-4')` itself be rejected with that error, and the
listener of `'listener-error'` (function 10) is never called. More generally a
raw listener whose promise is rejected with `E` makes the function returned by
`_wrapListener` be rejected with `E`, whatever the state of the registry. -/
theorem rejected_promise_is_not_redirected :
    listenerCount asyncFailure "listener-error" = 1 ∧
    (emit sampleCode "event-4" [] asyncFailure).1 = .rejected (.object 100) ∧
    (emit sampleCode "event-4" [] asyncFailure).2.calls = [(5, [])] ∧
    ∀ (effects : List Effect) (E : Value) (l : Nat) (args : List Value) (s : State),
      (_wrapListener.call (fun _ _ => ⟨effects, .rejects E⟩) l args s).1 = .rejected E :=
  ⟨by decide, by decide, by decide, fun _ _ _ _ _ => rfl⟩


/-- C5: a wrapped function made with `once = true` that has not fired yet, and
that is invoked with the argument lists `args :: more` one after the other,
runs the part that calls the raw listener on the first invocation only: the
context ends up fired, the first settlement is that of this single run
(whether it is fulfilled or rejected), every later invocation is fulfilled and
changes nothing, and the single run logs the call of the raw listener once.
This holds for the function of `_wrapListener` and for that of
`_wrapErrorListener`, and for any way `commit` of storing the context (an entry
of the registry or a function held by the caller). Once the fired context is
element `i` of the array of an event, the call `_listeners[e][i](...)` made by
`emit` is fulfilled and leaves the state as it is. Two awaited `emit` calls on
an event with one `once` listener call it once (index.test.js:231-240). -/
theorem once_wrapper_runs_raw_listener_once (code : Program)
    (commit : Wrapped → State → State) (ctx : Wrapped) (args : List Value)
    (more : List (List Value)) (s : State) (honce : ctx.once = true)
    (hfresh : ctx.fired = false) :
    (Wrapped.invokeEach (_wrapListener.call code) commit ctx (args :: more) s =
      (ctx.fire, (_wrapListener.call code ctx.listener args (commit ctx.fire s)).1 ::
        more.map (fun _ => Settled.fulfilled),
        (_wrapListener.call code ctx.listener args (commit ctx.fire s)).2)) ∧
    (Wrapped.invokeEach (_wrapErrorListener.call code) commit ctx (args :: more) s =
      (ctx.fire, (_wrapErrorListener.call code ctx.listener args (commit ctx.fire s)).1 ::
        more.map (fun _ => Settled.fulfilled),
        (_wrapErrorListener.call code ctx.listener args (commit ctx.fire s)).2)) ∧
    (∃ redirected : List (Nat × List Value),
      (Wrapped.invokeEach (_wrapListener.call code) commit ctx (args :: more) s).2.2.calls =
        (commit ctx.fire s).calls ++ (ctx.listener, args) :: redirected) ∧
    (Wrapped.invokeEach (_wrapErrorListener.call code) commit ctx (args :: more) s).2.2.calls =
      (commit ctx.fire s).calls ++ [(ctx.listener, args)] ∧
    (∀ (e : EventName) (i : Nat) (arr : List Wrapped) (later : List Value) (s1 : State),
      getProp s1._listeners e = some arr → arr[i]? = some ctx.fire →
      invokeAt (_wrapListener.call code) e i later s1 = (.fulfilled, s1) ∧
      invokeAt (_wrapErrorListener.call code) e i later s1 = (.fulfilled, s1)) ∧
    (emitEach sampleCode "event" [[], []] onceOnly).1 = [.fulfilled, .fulfilled] ∧
    (emitEach sampleCode "event" [[], []] onceOnly).2.calls = [(1, [])] := by
  have hspent : ctx.fire.spent = true := by simp [Wrapped.spent, Wrapped.fire, honce]
  refine ⟨invokeEach_once _ commit ctx args more s honce hfresh,
    invokeEach_once _ commit ctx args more s honce hfresh, ?_, ?_, ?_, by decide, by decide⟩
  · rw [invokeEach_once _ commit ctx args more s honce hfresh]
    exact calls_wrapListener_call code ctx.listener args (commit ctx.fire s)
  · rw [invokeEach_once _ commit ctx args more s honce hfresh]
    simp only [_wrapErrorListener.call]
    have hc := calls_callRaw code ctx.listener args (commit ctx.fire s)
    split <;> simp_all
  · intro e i arr later s1 hg hi
    rw [invokeAt_entry _ e i later s1 arr _ hg hi, invokeAt_entry _ e i later s1 arr _ hg hi]
    simp [hspent]

theorem once_wrapper_runs_raw_listener_once_witness :
    (Wrapped.invokeEach (_wrapListener.call sampleCode) (fun _ s => s) ⟨3, true, false⟩
        [[], [], []] redirected).2.1 = [.fulfilled, .fulfilled, .fulfilled] ∧
    (Wrapped.invokeEach (_wrapErrorListener.call sampleCode) (fun _ s => s) ⟨3, true, false⟩
        [[], [], []] create).2.1 = [.rejected (.object 100), .fulfilled, .fulfilled] ∧
    (Wrapped.invokeEach (_wrapErrorListener.call sampleCode) (fun _ s => s) ⟨3, true, false⟩
        [[], [], []] create).2.2.calls = [(3, [])] :=
  ⟨((congrArg (fun r => r.2.1) (once_wrapper_runs_raw_listener_once sampleCode (fun _ s => s)
      ⟨3, true, false⟩ [] [[], []] redirected rfl rfl).1).trans (by decide)),
    ((congrArg (fun r => r.2.1) (once_wrapper_runs_raw_listener_once sampleCode (fun _ s => s)
      ⟨3, true, false⟩ [] [[], []] create rfl rfl).2.1).trans (by decide)),
    ((once_wrapper_runs_raw_listener_once sampleCode (fun _ s => s)
      ⟨3, true, false⟩ [] [[], []] create rfl rfl).2.2.2.1).trans (by decide)⟩


/-- C6: let the array of `e` be `pre ++ tgt :: post`, where `tgt` is the first
entry whose raw listener is the function `t` (so its index is `pre.length`).
Then `after(e, t, l)` and `afterOnce(e, t, l)` succeed and give
`pre ++ tgt :: new :: post` (the new entry at index `pre.length + 1`), and
`before(e, t, l)` and `beforeOnce(e, t, l)` succeed and give
`pre ++ new :: tgt :: post` (the new entry at index `pre.length`, the target and
all later entries one place further back); the stored entries keep their
order. After `on fn1`, `on fn2`, `after(fn1, L)` an `emit` calls fn1, L, fn2
(index.test.js:308-314). -/
theorem after_and_before_insert_next_to_target (e : EventName) (t l : Nat) (s : State)
    (pre post : List Wrapped) (tgt : Wrapped)
    (hseq : listenersOf s e = pre ++ tgt :: post)
    (htgt : tgt.listener = t)
    (hfirst : ∀ w ∈ pre, w.listener ≠ t) :
    (∃ s1, after e (.function t) (.function l) s = .ok s1 ∧
      listenersOf s1 e = pre ++ tgt :: ⟨l, false, false⟩ :: post) ∧
    (∃ s1, afterOnce e (.function t) (.function l) s = .ok s1 ∧
      listenersOf s1 e = pre ++ tgt :: ⟨l, true, false⟩ :: post) ∧
    (∃ s1, before e (.function t) (.function l) s = .ok s1 ∧
      listenersOf s1 e = pre ++ ⟨l, false, false⟩ :: tgt :: post) ∧
    (∃ s1, beforeOnce e (.function t) (.function l) s = .ok s1 ∧
      listenersOf s1 e = pre ++ ⟨l, true, false⟩ :: tgt :: post) ∧
    ((register twoListeners [after "event" (.function 1) (.function 7)]).map
      (fun s1 => (emit sampleCode "event" [] s1).2.calls)) = some [(1, []), (7, []), (2, [])] := by
  have hafter : addAt (listenersOf s e) false (.function t) .null none
      = ((pre.length + 1 : Nat) : Int) := by
    rw [hseq, addAt_target_found pre post tgt (.function t) .null (by simp [Value.truthy])
      (Or.inl (by rw [htgt])) (fun w hw => ⟨by simpa using hfirst w hw, by simp⟩)]
    simp [Value.truthy]
  have hbefore : addAt (listenersOf s e) false .null (.function t) none
      = ((pre.length : Nat) : Int) := by
    rw [hseq, addAt_target_found pre post tgt .null (.function t) (by simp [Value.truthy])
      (Or.inr (by rw [htgt])) (fun w hw => ⟨by simp, by simpa using hfirst w hw⟩)]
    simp [Value.truthy]
  have hlen1 : pre.length + 1 ≤ (listenersOf s e).length := by simp [hseq]
  have hlen0 : pre.length ≤ (listenersOf s e).length := by simp [hseq]
  have htake1 : ∀ w : Wrapped, (pre ++ tgt :: post).take (pre.length + 1)
      ++ w :: (pre ++ tgt :: post).drop (pre.length + 1) = pre ++ tgt :: w :: post := by
    intro w
    have hsplit : pre ++ tgt :: post = (pre ++ [tgt]) ++ post := by simp
    have hl : pre.length + 1 = (pre ++ [tgt]).length := by simp
    rw [hsplit, hl, List.take_left, List.drop_left]
    simp
  have htake0 : ∀ w : Wrapped, (pre ++ tgt :: post).take pre.length
      ++ w :: (pre ++ tgt :: post).drop pre.length = pre ++ w :: tgt :: post := by
    intro w
    rw [List.take_left, List.drop_left]
  refine ⟨?_, ?_, ?_, ?_, by decide⟩
  · obtain ⟨s1, h1, h2⟩ := registered_at e l false false (.function t) .null none s _ hafter hlen1
    exact ⟨s1, h1, by rw [h2, hseq, htake1]⟩
  · obtain ⟨s1, h1, h2⟩ := registered_at e l true false (.function t) .null none s _ hafter hlen1
    exact ⟨s1, h1, by rw [h2, hseq, htake1]⟩
  · obtain ⟨s1, h1, h2⟩ := registered_at e l false false .null (.function t) none s _ hbefore hlen0
    exact ⟨s1, h1, by rw [h2, hseq, htake0]⟩
  · obtain ⟨s1, h1, h2⟩ := registered_at e l true false .null (.function t) none s _ hbefore hlen0
    exact ⟨s1, h1, by rw [h2, hseq, htake0]⟩

theorem after_and_before_insert_next_to_target_witness :
    (∃ s1, after "event" (.function 2) (.function 7) abc = .ok s1 ∧
      listenersOf s1 "event"
        = [⟨1, false, false⟩] ++ ⟨2, false, false⟩ :: ⟨7, false, false⟩ :: [⟨4, false, false⟩]) ∧
    (∃ s1, before "event" (.function 2) (.function 7) abc = .ok s1 ∧
      listenersOf s1 "event"
        = [⟨1, false, false⟩] ++ ⟨7, false, false⟩ :: ⟨2, false, false⟩ :: [⟨4, false, false⟩]) :=
  ⟨(after_and_before_insert_next_to_target "event" 2 7 abc [⟨1, false, false⟩]
      [⟨4, false, false⟩] ⟨2, false, false⟩ (by decide) rfl (by decide)).1,
    (after_and_before_insert_next_to_target "event" 2 7 abc [⟨1, false, false⟩]
      [⟨4, false, false⟩] ⟨2, false, false⟩ (by decide) rfl (by decide)).2.2.1⟩

/-- C7: if no entry stored for `e` has the raw listener `T` (in particular when
`e` has no entry at all), then `after`, `before`, `afterOnce` and `beforeOnce`
with target `T` and a callable listener succeed and append the new entry at
the end of the array of `e`. After `on fn1`, `on fn2` and `after` with a
function that is not registered, an `emit` calls fn1, fn2, L
(index.test.js:329-335). -/
theorem unmatched_target_appends (e : EventName) (T : Value) (l : Nat) (s : State)
    (hnone : ∀ w ∈ listenersOf s e, Value.function w.listener ≠ T) :
    (∃ s1, after e T (.function l) s = .ok s1 ∧
      listenersOf s1 e = listenersOf s e ++ [⟨l, false, false⟩]) ∧
    (∃ s1, before e T (.function l) s = .ok s1 ∧
      listenersOf s1 e = listenersOf s e ++ [⟨l, false, false⟩]) ∧
    (∃ s1, afterOnce e T (.function l) s = .ok s1 ∧
      listenersOf s1 e = listenersOf s e ++ [⟨l, true, false⟩]) ∧
    (∃ s1, beforeOnce e T (.function l) s = .ok s1 ∧
      listenersOf s1 e = listenersOf s e ++ [⟨l, true, false⟩]) ∧
    ((register twoListeners [after "event" (.function 8) (.function 7)]).map
      (fun s1 => (emit sampleCode "event" [] s1).2.calls)) = some [(1, []), (2, []), (7, [])] := by
  have hafter : addAt (listenersOf s e) false T .null none
      = (((listenersOf s e).length : Nat) : Int) :=
    addAt_target_missing _ T .null (fun w hw => ⟨hnone w hw, by simp⟩)
  have hbefore : addAt (listenersOf s e) false .null T none
      = (((listenersOf s e).length : Nat) : Int) :=
    addAt_target_missing _ .null T (fun w hw => ⟨by simp, hnone w hw⟩)
  refine ⟨?_, ?_, ?_, ?_, by decide⟩
  · obtain ⟨s1, h1, h2⟩ := registered_at e l false false T .null none s _ hafter (Nat.le_refl _)
    exact ⟨s1, h1, by simpa using h2⟩
  · obtain ⟨s1, h1, h2⟩ := registered_at e l false false .null T none s _ hbefore (Nat.le_refl _)
    exact ⟨s1, h1, by simpa using h2⟩
  · obtain ⟨s1, h1, h2⟩ := registered_at e l true false T .null none s _ hafter (Nat.le_refl _)
    exact ⟨s1, h1, by simpa using h2⟩
  · obtain ⟨s1, h1, h2⟩ := registered_at e l true false .null T none s _ hbefore (Nat.le_refl _)
    exact ⟨s1, h1, by simpa using h2⟩

theorem unmatched_target_appends_witness :
    (∃ s1, after "event" (.function 8) (.function 7) twoListeners = .ok s1 ∧
      listenersOf s1 "event" = listenersOf twoListeners "event" ++ [⟨7, false, false⟩]) ∧
    (∃ s1, beforeOnce "never" .undefined (.function 7) twoListeners = .ok s1 ∧
      listenersOf s1 "never" = listenersOf twoListeners "never" ++ [⟨7, true, false⟩]) :=
  ⟨(unmatched_target_appends "event" (.function 8) 7 twoListeners (by decide)).1,
    (unmatched_target_appends "never" .undefined 7 twoListeners (by decide)).2.2.2.1⟩

/-- C8: for every state, event `e` and callable `D`, `prependListener(e, D)` and
`prependOnceListener(e, D)` succeed and give the array of `e` with the new
entry put in front of the old entries, which are unchanged. After registering
functions 1, 2, 4 and prepending function 9, an `emit` calls 9, 1, 2, 4. -/
theorem prepend_puts_listener_first :
    (∀ (e : EventName) (D : Nat) (s : State),
      (∃ s1, prependListener e (.function D) s = .ok s1 ∧
        listenersOf s1 e = ⟨D, false, false⟩ :: listenersOf s e) ∧
      (∃ s1, prependOnceListener e (.function D) s = .ok s1 ∧
        listenersOf s1 e = ⟨D, true, false⟩ :: listenersOf s e)) ∧
    ((register abc [prependListener "event" (.function 9)]).map
      (fun s1 => (emit sampleCode "event" [] s1).2.calls))
        = some [(9, []), (1, []), (2, []), (4, [])] ∧
    ((register abc [prependOnceListener "event" (.function 9)]).map
      (fun s1 => (emit sampleCode "event" [] s1).2.calls))
        = some [(9, []), (1, []), (2, []), (4, [])] := by
  refine ⟨fun e D s => ⟨?_, ?_⟩, by decide, by decide⟩
  · obtain ⟨s1, h1, h2⟩ := registered_at e D false true .null .null none s 0
      (by simp [addAt]) (Nat.zero_le _)
    exact ⟨s1, h1, by simpa using h2⟩
  · obtain ⟨s1, h1, h2⟩ := registered_at e D true true .null .null none s 0
      (by simp [addAt]) (Nat.zero_le _)
    exact ⟨s1, h1, by simpa using h2⟩


/-- C9, the claim fails: with functions 1 and 2 registered for `'event'`,
`_addListener('event', f9, false, true, null, null, 1)`, which gives both
`prepend = true` and the explicit index `at = 1`, stores the new entry at
index 0 and not at index 1. -/
theorem prepend_wins_over_explicit_index :
    ((_addListener "event" (.function 9) false true .null .null (some 1)
        twoListeners).toOption.map (fun s1 => listenersOf s1 "event"))
      = some [⟨9, false, false⟩, ⟨1, false, false⟩, ⟨2, false, false⟩] ∧
    ((_addListener "event" (.function 9) false true .null .null (some 1)
        twoListeners).toOption.map (fun s1 => listenersOf s1 "event"))
      ≠ some ((listenersOf twoListeners "event").insertIdx 1 ⟨9, false, false⟩) := by
  decide

/-- C9, amended: for every combination of options and every callable
listener, `_addListener` succeeds and inserts the new entry at the position of
exactly one strategy, chosen in the precedence `prepend` (index 0), then the
explicit index `at` (counted from the end when negative, clamped to the
array), then the `after`/`before` target lookup, then appending; the entries
of the event are otherwise unchanged. -/
theorem positioning_precedence (e : EventName) (l : Nat) (once prepend : Bool)
    (after before : Value) (index : Option Int) (s : State) :
    ∃ s1, _addListener e (.function l) once prepend after before index s = .ok s1 ∧
      listenersOf s1 e = (listenersOf s e).insertIdx
        (positionFor (listenersOf s e) after before (strategyFor prepend after before index))
        ⟨l, once, false⟩ := by
  obtain ⟨s1, h1, h2, _⟩ := _addListener_function e l once prepend after before index s
  refine ⟨s1, h1, ?_⟩
  rw [listenersOf_eq_of_getProp h2, splice_insert_clamped]
  congr 1
  generalize listenersOf s e = arr
  unfold addAt strategyFor
  cases prepend with
  | true => simp [positionFor]
  | false =>
    cases index with
    | some i => simp [positionFor]
    | none =>
      simp only [Bool.false_eq_true, ↓reduceIte]
      by_cases hgiven : (after.truthy || before.truthy) = true
      · simp only [hgiven, ↓reduceIte, positionFor, findIndex, strictEquals_function]
        cases hfind : arr.findIdx? (fun w => decide (Value.function w.listener = after)
            || decide (Value.function w.listener = before)) with
        | none => simp
        | some j =>
          have hj : j < arr.length := (List.findIdx?_eq_some_iff_findIdx_eq.1 hfind).1
          have hne : ¬ ((j : Int) = -1) := by omega
          simp only [hne, ↓reduceIte]
          split
          · have h0 : ¬ ((j : Int) + 1 < 0) := by omega
            simp only [h0, ↓reduceIte]
            omega
          · have h0 : ¬ ((j : Int) < 0) := by omega
            simp only [h0, ↓reduceIte]
            omega
      · simp [hgiven, positionFor]

/-- C10, the code at the failing input: with function 1 registered for
`'event'` (and function 2 after it), `removeListener('event', fn1)` and
`off('event', fn1)` leave both entries in place and the count at 2. The test of
index.js:184 reads the property `listener` of the array and not of its element
`i`, so it compares the argument with `undefined`: no call with a function
removes anything, whatever the state, and `removeListener(e, undefined)`
removes the first entry. -/
theorem removeListener_leaves_registered_listener :
    listenerCount twoListeners "event" = 2 ∧
    listenersOf (removeListener "event" (.function 1) twoListeners) "event"
      = [⟨1, false, false⟩, ⟨2, false, false⟩] ∧
    listenerCount (removeListener "event" (.function 1) twoListeners) "event" = 2 ∧
    listenerCount (off "event" (.function 1) twoListeners) "event" = 2 ∧
    (∀ (e : EventName) (f : Nat) (s : State), removeListener e (.function f) s = s) ∧
    listenersOf (removeListener "event" .undefined twoListeners) "event"
      = [⟨2, false, false⟩] :=
  ⟨by decide, by decide, by decide, by decide, removeListener_function, by decide⟩


/-- C11: `listenerCount(e)` is 0 on a new emitter, and from any state, whatever
its threshold, any series of `_addListener` calls with callable listeners (the
eight public methods are such calls) succeeds and raises `listenerCount(e)` by
the number of those calls that are for `e`. With the threshold set to 0, four
registrations on one event all succeed, the count is 4 and each of them warns. -/
theorem listenerCount_counts_registrations :
    (∀ e : EventName, listenerCount create e = 0) ∧
    (∀ (regs : List Registration) (s : State) (e : EventName),
      ∃ s1, register s (regs.map Registration.run) = some s1 ∧
        listenerCount s1 e
          = listenerCount s e + (regs.filter (fun r => decide (r.eventName = e))).length) ∧
    (register zeroThreshold [«on» "e" (.function 1), once "e" (.function 2),
        prependListener "e" (.function 4), after "e" (.function 1) (.function 7)]).map
      (fun s => (listenerCount s "e", s.warnings, getMaxListeners s))
        = some (4, [1, 2, 3, 4], .fin 0) := by
  refine ⟨fun e => rfl, ?_, by decide⟩
  intro regs
  induction regs with
  | nil => intro s e; exact ⟨s, rfl, by simp⟩
  | cons r regs ih =>
    intro s e
    obtain ⟨s1, h1, h2⟩ := listenerCount_addListener r.eventName r.listener r.once r.prepend
      r.after r.before r.index s
    obtain ⟨s2, k1, k2⟩ := ih s1 e
    refine ⟨s2, ?_, ?_⟩
    · simp only [List.map_cons, register, Registration.run, h1]
      exact k1
    · rw [k2, h2 e]
      by_cases he : r.eventName = e
      · simp [he]
        omega
      · simp [he]

/-- C12: a call of `_addListener`, with any options, throws the `TypeError` with
code `'ERR_INVALID_ARG_TYPE'` exactly when `typeof listener` is not
`'function'`, and returns otherwise; so do the eight public registration
methods. A call that throws leaves the emitter as it was: no event name is
added and no array is changed. -/
theorem registration_throws_iff_not_callable :
    (∀ (e : EventName) (listener : Value) (once prepend : Bool) (after before : Value)
        (index : Option Int) (s : State),
      (_addListener e listener once prepend after before index s = .error invalidArgType
        ↔ listener.typeof ≠ "function") ∧
      ((∃ s1, _addListener e listener once prepend after before index s = .ok s1)
        ↔ listener.typeof = "function") ∧
      (listener.typeof ≠ "function" →
        afterCall s (_addListener e listener once prepend after before index s) = s)) ∧
    (∀ m ∈ registrationMethods, ∀ (e : EventName) (target listener : Value) (s : State),
      (m e target listener s = .error invalidArgType ↔ listener.typeof ≠ "function") ∧
      (listener.typeof ≠ "function" →
        afterCall s (m e target listener s) = s ∧
        eventNames (afterCall s (m e target listener s)) = eventNames s ∧
        ∀ e1, listenersOf (afterCall s (m e target listener s)) e1 = listenersOf s e1)) ∧
    «on» "event-1" (.number (.fin 0)) create = .error invalidArgType := by
  have hgen : ∀ (e : EventName) (listener : Value) (once prepend : Bool) (after before : Value)
      (index : Option Int) (s : State), listener.typeof ≠ "function" →
      afterCall s (_addListener e listener once prepend after before index s) = s := by
    intro e listener once prepend after before index s h
    rw [(_addListener_error_iff e listener once prepend after before index s).2 h]
    rfl
  refine ⟨fun e listener once prepend after before index s => ⟨_addListener_error_iff _ _ _ _ _ _ _ _,
    ?_, hgen e listener once prepend after before index s⟩, ?_, by decide⟩
  · constructor
    · rintro ⟨s1, h1⟩
      by_contra hf
      rw [(_addListener_error_iff e listener once prepend after before index s).2 hf] at h1
      cases h1
    · intro hf
      obtain ⟨ref, rfl⟩ := (typeof_eq_function listener).1 hf
      obtain ⟨s1, h1, _⟩ := _addListener_function e ref once prepend after before index s
      exact ⟨s1, h1⟩
  · intro m hm e target listener s
    have hcases : ∃ (once prepend : Bool) (after before : Value),
        m e target listener s = _addListener e listener once prepend after before none s := by
      simp only [registrationMethods, List.mem_cons, List.mem_singleton, List.not_mem_nil,
        or_false] at hm
      rcases hm with rfl | rfl | rfl | rfl | rfl | rfl | rfl | rfl
      · exact ⟨false, false, .null, .null, rfl⟩
      · exact ⟨true, false, .null, .null, rfl⟩
      · exact ⟨false, true, .null, .null, rfl⟩
      · exact ⟨true, true, .null, .null, rfl⟩
      · exact ⟨false, false, target, .null, rfl⟩
      · exact ⟨false, false, .null, target, rfl⟩
      · exact ⟨true, false, target, .null, rfl⟩
      · exact ⟨true, false, .null, target, rfl⟩
    obtain ⟨once, prepend, after, before, hm1⟩ := hcases
    rw [hm1]
    refine ⟨_addListener_error_iff _ _ _ _ _ _ _ _, fun h => ?_⟩
    rw [hgen e listener once prepend after before none s h]
    exact ⟨rfl, rfl, fun _ => rfl⟩


/-- C13, the claim fails: `setMaxListeners(Infinity)` returns and makes
`Infinity` the threshold, although `Infinity` is not a finite number. -/
theorem setMaxListeners_accepts_infinity :
    (setMaxListeners (.number .posInf) create).toOption.map getMaxListeners = some .posInf ∧
    ¬ ∃ q : ℚ, 0 ≤ q ∧ Value.number .posInf = Value.number (.fin q) :=
  ⟨by decide, by rintro ⟨q, _, h⟩; cases h⟩

/-- C13, amended: `setMaxListeners(n)` returns exactly when `n` is a number that
is neither `NaN` nor negative, that is `Infinity` or a finite number that is at
least 0, and the threshold is then `n`, nothing else being changed. For every
other `n` (a negative number, `-Infinity`, `NaN`, a value that is not a number)
it throws the `RangeError` with code `'ERR_OUT_OF_RANGE'` and leaves the
emitter as it was. `-1` and `NaN` throw, `0` returns. -/
theorem setMaxListeners_returns_iff_nonnegative_number (n : Value) (s : State) :
    ((∃ s1, setMaxListeners n s = .ok s1) ↔
      (n = .number .posInf ∨ ∃ q : ℚ, 0 ≤ q ∧ n = .number (.fin q))) ∧
    (∀ s1, setMaxListeners n s = .ok s1 → ∃ x, n = .number x ∧ getMaxListeners s1 = x ∧
      s1._listeners = s._listeners ∧ s1.warnings = s.warnings ∧ s1.calls = s.calls) ∧
    ((¬ ∃ s1, setMaxListeners n s = .ok s1) →
      setMaxListeners n s = .error outOfRange ∧ afterCall s (setMaxListeners n s) = s) ∧
    setMaxListeners (.number (.fin (-1))) create = .error outOfRange ∧
    setMaxListeners (.number .nan) create = .error outOfRange ∧
    (setMaxListeners (.number (.fin 0)) create).toOption.map getMaxListeners = some (.fin 0) := by
  refine ⟨?_, ?_, ?_, by decide, by decide, by decide⟩
  · cases n with
    | number x =>
      cases x with
      | fin q =>
        by_cases hq : q < 0
        · simp [setMaxListeners, JSNumber.lt, JSNumber.isNaN, hq]
        · simp only [setMaxListeners, JSNumber.lt, JSNumber.isNaN, hq, decide_False,
            Bool.or_self, Bool.false_eq_true, ↓reduceIte]
          constructor
          · intro _
            exact Or.inr ⟨q, not_lt.1 hq, rfl⟩
          · intro _
            exact ⟨_, rfl⟩
      | nan => simp [setMaxListeners, JSNumber.lt, JSNumber.isNaN]
      | posInf => simp [setMaxListeners, JSNumber.lt, JSNumber.isNaN]
      | negInf => simp [setMaxListeners, JSNumber.lt, JSNumber.isNaN]
    | _ => simp [setMaxListeners]
  · intro s1 h
    cases n with
    | number x =>
      simp only [setMaxListeners] at h
      split at h
      · cases h
      · cases h
        exact ⟨x, rfl, rfl, rfl, rfl, rfl⟩
    | _ => simp [setMaxListeners] at h
  · intro h
    cases n with
    | number x =>
      simp only [setMaxListeners] at h ⊢
      split
      · exact ⟨rfl, rfl⟩
      · rename_i hc
        simp [hc] at h
    | _ => exact ⟨rfl, rfl⟩

/-- C14: in every state, `removeAllListeners()` without an argument leaves
`eventNames()` empty and every `listenerCount` at 0, and `removeAllListeners(e)`
leaves `listenerCount(e)` at 0 and the array of every other event name as it was. -/
theorem removeAllListeners_clears :
    (∀ s : State, eventNames (removeAllListeners none s) = [] ∧
      ∀ e : EventName, listenerCount (removeAllListeners none s) e = 0) ∧
    (∀ (s : State) (e : EventName), listenerCount (removeAllListeners (some e) s) e = 0 ∧
      ∀ e1 : EventName, e1 ≠ e →
        getProp (removeAllListeners (some e) s)._listeners e1 = getProp s._listeners e1 ∧
        listenersOf (removeAllListeners (some e) s) e1 = listenersOf s e1) := by
  refine ⟨fun s => ⟨rfl, fun e => rfl⟩, fun s e => ?_⟩
  by_cases h : listenerCount s e = 0
  · rw [removeAllListeners_of_zero s e h]
    exact ⟨h, fun e1 _ => ⟨rfl, rfl⟩⟩
  · rw [removeAllListeners_of_pos s e h]
    refine ⟨by simp [listenerCount, getProp_setProp_same], fun e1 he1 => ?_⟩
    simp [listenersOf, getProp_setProp_ne _ _ _ _ he1]

/-- C15, the claim fails: after `on('event', fn1)`, `on('event', fn2)` and
`removeAllListeners('event')`, the name `'event'` is still returned by
`eventNames()` although `listenerCount('event')` is 0. -/
theorem eventNames_keeps_emptied_event :
    "event" ∈ eventNames (removeAllListeners (some "event") twoListeners) ∧
    ¬ (1 ≤ listenerCount (removeAllListeners (some "event") twoListeners) "event") := by
  decide

/-- C15, amended: in every state, and so in every state reached from a new
emitter, an event name other than `'__proto__'` that has at least one
registration is returned by `eventNames()`. The converse does not hold:
`removeAllListeners(e)` keeps every name that `eventNames()` returns, the one
of `e` included, while it leaves `listenerCount(e)` at 0. The name
`'__proto__'` is left out: on the plain object that `removeAllListeners()`
installs it is stored as the prototype and not as a key. -/
theorem eventNames_contains_listened_events (s : State) (e : EventName) :
    (e ≠ "__proto__" → 1 ≤ listenerCount s e → e ∈ eventNames s) ∧
    (∀ e1 : EventName, e1 ≠ "__proto__" →
      (e1 ∈ eventNames (removeAllListeners (some e) s) ↔ e1 ∈ eventNames s)) ∧
    listenerCount (removeAllListeners (some e) s) e = 0 := by
  refine ⟨fun _ h => ?_, fun e1 _ => ?_, ?_⟩
  · obtain ⟨arr, hg⟩ := getProp_of_listenerCount_pos s e (by omega)
    exact mem_keys_of_getProp _ _ _ hg
  · by_cases h : listenerCount s e = 0
    · rw [removeAllListeners_of_zero s e h]
    · obtain ⟨arr, hg⟩ := getProp_of_listenerCount_pos s e h
      rw [removeAllListeners_of_pos s e h]
      simp [eventNames, keys_setProp_of_getProp _ _ _ _ hg]
  · by_cases h : listenerCount s e = 0
    · rw [removeAllListeners_of_zero s e h, h]
    · rw [removeAllListeners_of_pos s e h]
      simp [listenerCount, getProp_setProp_same]

theorem eventNames_contains_listened_events_witness :
    "event" ∈ eventNames twoListeners ∧
    "event" ∈ eventNames (removeAllListeners (some "event") twoListeners) ∧
    listenerCount (removeAllListeners (some "event") twoListeners) "event" = 0 :=
  ⟨(eventNames_contains_listened_events twoListeners "event").1 (by decide) (by decide),
    ((eventNames_contains_listened_events twoListeners "event").2.1 "event" (by decide)).2
      ((eventNames_contains_listened_events twoListeners "event").1 (by decide) (by decide)),
    (eventNames_contains_listened_events twoListeners "event").2.2⟩

/-- C16, the code at the failing input: with functions 1 and 2 registered with
`on` for `'event'`, `rawListeners('event')` returns `[undefined, undefined]` and
not the two functions; with one `once` listener it returns `[undefined]`. The
loop of index.js:202-208 reads the properties `once` and `listener` of the
array and not of its element `i`, so in every state the result holds
`undefined` once per stored entry. -/
theorem rawListeners_returns_undefined :
    rawListeners "event" twoListeners = [.value .undefined, .value .undefined] ∧
    rawListeners "event" onceOnly = [.value .undefined] ∧
    rawListeners "never" twoListeners = [] ∧
    ∀ (s : State) (e : EventName),
      rawListeners e s = List.replicate (listenerCount s e) (.value .undefined) := by
  refine ⟨by decide, by decide, by decide, fun s e => ?_⟩
  unfold rawListeners listenerCount
  cases getProp s._listeners e with
  | none => rfl
  | some arr => simp [rawListenersLoop_eq]


/-- C18: if no listener performs a registry operation, then after
`emit(e, ...args)`, fulfilled or rejected, the table holds the same event names
and, for every event name, the same raw listeners with the same `once` flags in
the same order: only `fired` flags may differ. So `eventNames()` and every
`listenerCount` are as before. A `once` listener that has fired is still
stored, fired, and counted. -/
theorem emit_keeps_stored_listeners (code : Program) (e : EventName) (args : List Value)
    (s : State) (hcode : ∀ l a, (code l a).effects = []) :
    stored (emit code e args s).2._listeners = stored s._listeners ∧
    eventNames (emit code e args s).2 = eventNames s ∧
    (∀ e1 : EventName,
      (listenersOf (emit code e args s).2 e1).map (fun w => (w.listener, w.once))
        = (listenersOf s e1).map (fun w => (w.listener, w.once)) ∧
      listenerCount (emit code e args s).2 e1 = listenerCount s e1) ∧
    listenersOf (emit sampleCode "event" [] onceOnly).2 "event" = [⟨1, true, true⟩] ∧
    listenerCount (emit sampleCode "event" [] onceOnly).2 "event" = 1 := by
  have hst := stored_emit code hcode e args s
  have hlist : ∀ e1 : EventName,
      (listenersOf (emit code e args s).2 e1).map (fun w => (w.listener, w.once))
        = (listenersOf s e1).map (fun w => (w.listener, w.once)) := by
    intro e1
    have h := getProp_of_stored_eq _ _ hst e1
    unfold listenersOf
    cases h1 : getProp (emit code e args s).2._listeners e1 <;>
      cases h2 : getProp s._listeners e1 <;> simp_all
  refine ⟨hst, keys_of_stored_eq _ _ hst, fun e1 => ⟨hlist e1, ?_⟩, by decide, by decide⟩
  rw [listenerCount_eq_length, listenerCount_eq_length]
  simpa using congrArg List.length (hlist e1)

theorem emit_keeps_stored_listeners_witness :
    eventNames (emit sampleCode "event-3" [] thirdThrows).2 = eventNames thirdThrows ∧
    listenerCount (emit sampleCode "event-3" [] thirdThrows).2 "event-3" = 4 :=
  ⟨(emit_keeps_stored_listeners sampleCode "event-3" [] thirdThrows
      (by intro l a; unfold sampleCode; split <;> [rfl; (split <;> rfl)])).2.1,
    ((emit_keeps_stored_listeners sampleCode "event-3" [] thirdThrows
      (by intro l a; unfold sampleCode; split <;> [rfl; (split <;> rfl)])).2.2.1
        "event-3").2.trans (by decide)⟩

/-- C19: a call of `_addListener` for `e` with a callable listener and any
options returns, and the array of `e` is then the old array with the one new
entry, holding the raw listener, put in at some position `n`: the old entries
are all kept, in their order (taking the new entry out gives the old array
back). The array of every other event name is as before. -/
theorem registration_inserts_one_entry (e : EventName) (l : Nat) (once prepend : Bool)
    (after before : Value) (index : Option Int) (s : State) :
    ∃ s1 n, _addListener e (.function l) once prepend after before index s = .ok s1 ∧
      n ≤ (listenersOf s e).length ∧
      listenersOf s1 e
        = (listenersOf s e).take n ++ ⟨l, once, false⟩ :: (listenersOf s e).drop n ∧
      (listenersOf s1 e).eraseIdx n = listenersOf s e ∧
      ∀ e1 : EventName, e1 ≠ e →
        getProp s1._listeners e1 = getProp s._listeners e1 ∧
        listenersOf s1 e1 = listenersOf s e1 := by
  obtain ⟨s1, h1, h2, h3, _⟩ := _addListener_function e l once prepend after before index s
  obtain ⟨n, hle, hsp⟩ := splice_insert_exists (listenersOf s e)
    (addAt (listenersOf s e) prepend after before index) ⟨l, once, false⟩
  have hins : listenersOf s1 e = (listenersOf s e).take n ++ ⟨l, once, false⟩ ::
      (listenersOf s e).drop n := by
    rw [listenersOf_eq_of_getProp h2, hsp]
  refine ⟨s1, n, h1, hle, hins, ?_, fun e1 he1 => ⟨h3 e1 he1, by simp [listenersOf, h3 e1 he1]⟩⟩
  rw [hins, List.eraseIdx_append_of_length_le (by simp [List.length_take])]
  simp [List.length_take, Nat.min_eq_left hle]


/-- C17: let the array of `'listener-error'` be `pre ++ H :: post`, where the
listeners of `pre` are live and return normally and `H` is live and raises `E`
(by a `throw` or by a rejected promise), none of them touching the registry.
Then `emit('listener-error', ...args)` is rejected with `E` after the calls of
`pre` and `H`. And when a live listener `L` of an ordinary event `e` throws
`E0`, after listeners that return normally, `emit(e, ...args)` is rejected with
`E` too: the calls are those of `e` up to `L`, then `pre` and `H` with `E0` as
only argument. In both cases nothing is called after `H`: no listener of
`post`, and no listener of `'listener-error'` with `E`. -/
theorem error_listener_error_propagates (code : Program) (args : List Value) (s : State)
    (pre post : List Wrapped) (H : Wrapped) (E : Value)
    (herrs : getProp s._listeners "listener-error" = some (pre ++ H :: post))
    (hpre : ∀ w ∈ pre, w.spent = false ∧ ∀ a, code w.listener a = ⟨[], .returns⟩)
    (hlive : H.spent = false)
    (hraise : ∀ a, code H.listener a = ⟨[], .throws E⟩ ∨ code H.listener a = ⟨[], .rejects E⟩) :
    ((emit code "listener-error" args s).1 = .rejected E ∧
      (emit code "listener-error" args s).2.calls =
        s.calls ++ (pre ++ [H]).map (fun w => (w.listener, args))) ∧
    (∀ (e : EventName) (pre1 post1 : List Wrapped) (L : Wrapped) (E0 : Value),
      e ≠ "listener-error" →
      getProp s._listeners e = some (pre1 ++ L :: post1) →
      (∀ w ∈ pre1, w.spent = false ∧ code w.listener args = ⟨[], .returns⟩) →
      L.spent = false → code L.listener args = ⟨[], .throws E0⟩ →
      (emit code e args s).1 = .rejected E ∧
      (emit code e args s).2.calls =
        s.calls ++ pre1.map (fun w => (w.listener, args)) ++ [(L.listener, args)]
          ++ (pre ++ [H]).map (fun w => (w.listener, [E0]))) := by
  constructor
  · obtain ⟨s1, h1, h2⟩ := errorChannel_rejects code args s pre post H E herrs
      (fun w hw => ⟨(hpre w hw).1, (hpre w hw).2 args⟩) hlive (hraise args)
    simp only [emit, ↓reduceIte, h1, h2, and_self]
  · intro e pre1 post1 L E0 hne hseq hpre1 hL hthrow
    have hcount : listenerCount s e = pre1.length + (post1.length + 1) := by
      simp [listenerCount, hseq]
    obtain ⟨s1, h1, h2, h3, h4⟩ := emitLoop_plain (_wrapListener.call code) e args pre1
      (L :: post1) (fun w hw s0 => by
        simpa [hne] using wrapper_call_returns code e w.listener args (hpre1 w hw).2 s0)
      [] s (by simpa using hseq)
    have hi : (pre1.map Wrapped.fire ++ L :: post1)[pre1.length]? = some L := by
      rw [List.getElem?_append_right (by simp)]
      simp
    have hstep := invokeAt_entry (_wrapListener.call code) e pre1.length args s1 _ L
      (by simpa using h2) hi
    have herrs1 : getProp (storeAt e pre1.length L.fire s1)._listeners "listener-error"
        = some (pre ++ H :: post) := by
      rw [getProp_storeAt_ne e "listener-error" _ _ s1 (Ne.symm hne),
        h3 "listener-error" (Ne.symm hne), herrs]
    obtain ⟨s2, g1, g2⟩ := errorChannel_rejects code [E0]
      (⟨(storeAt e pre1.length L.fire s1)._listeners,
        (storeAt e pre1.length L.fire s1)._maxListeners,
        (storeAt e pre1.length L.fire s1).warnings,
        (storeAt e pre1.length L.fire s1).calls ++ [(L.listener, args)]⟩ : State)
      pre post H E herrs1 (fun w hw => ⟨(hpre w hw).1, (hpre w hw).2 [E0]⟩) hlive (hraise [E0])
    have hpos : listenerCount (⟨(storeAt e pre1.length L.fire s1)._listeners,
        (storeAt e pre1.length L.fire s1)._maxListeners,
        (storeAt e pre1.length L.fire s1).warnings,
        (storeAt e pre1.length L.fire s1).calls ++ [(L.listener, args)]⟩ : State)
        "listener-error" > 0 := by
      simp [listenerCount, herrs1]
    have hcall : invokeAt (_wrapListener.call code) e pre1.length args s1 = (.rejected E, s2) := by
      rw [hstep]
      simp only [hL, Bool.false_eq_true, ↓reduceIte, _wrapListener.call,
        callRaw_of_no_effects code _ args _ _ hthrow, hpos, g1]
    simp only [List.length_nil] at h1
    unfold emit emitWith
    simp only [hne, if_false, hcount]
    rw [if_pos (by omega), emitLoop_add]
    simp only [h1, Nat.zero_add, emitLoop, hcall, true_and]
    simp [g2, h4, filter_live_eq_self pre1 (fun w hw => (hpre1 w hw).1), calls_storeAt]

theorem error_listener_error_propagates_witness :
    ((emit busyCode "listener-error" [.null] errorListenerThrows).1 = .rejected (.object 200) ∧
      (emit busyCode "listener-error" [.null] errorListenerThrows).2.calls =
        [(10, [.null]), (6, [.null])]) ∧
    ((emit busyCode "event-4" [] errorListenerThrows).1 = .rejected (.object 200) ∧
      (emit busyCode "event-4" [] errorListenerThrows).2.calls =
        [(3, []), (10, [.object 100]), (6, [.object 100])]) :=
  ⟨(error_listener_error_propagates busyCode [.null] errorListenerThrows [⟨10, false, false⟩]
      [⟨12, false, false⟩] ⟨6, false, false⟩ (.object 200) (by decide)
      (by intro w hw; simp at hw; subst hw; exact ⟨rfl, fun a => rfl⟩) rfl
      (fun a => Or.inl rfl)).1,
    (error_listener_error_propagates busyCode [] errorListenerThrows [⟨10, false, false⟩]
      [⟨12, false, false⟩] ⟨6, false, false⟩ (.object 200) (by decide)
      (by intro w hw; simp at hw; subst hw; exact ⟨rfl, fun a => rfl⟩) rfl
      (fun a => Or.inl rfl)).2 "event-4" [] [] ⟨3, false, false⟩ (.object 100) (by decide)
      (by decide) (by decide) rfl rfl⟩


/-- C20: `emit(e, ...args)` is the series of awaited calls
`_listeners[e][i](...args)` for `i = 0, 1, ..., n - 1` in this order, stopped at
the first one that is rejected, where `n` is `listenerCount(e)` in the state
in which `emit` is called: at most `n` wrapped listeners are invoked, whatever
the listeners do to the registry meanwhile. So when the listener `A` of `e`
registers a function `N` at the end of the array of `e` during the dispatch
(the other listeners being non-once listeners that return normally and leave
the registry alone), this `emit` is fulfilled after calling exactly the
listeners stored at its start, `N` is then the last entry of `e`, and the next
`emit` calls `N` after them. -/
theorem emit_reads_count_once :
    (∀ (code : Program) (e : EventName) (args : List Value) (s : State),
      emit code e args s = invokeIndices
        (if e = "listener-error" then _wrapErrorListener.call code else _wrapListener.call code)
        e args (List.range (listenerCount s e)) s) ∧
    (∀ (code : Program) (e : EventName) (args : List Value) (s : State)
        (pre post : List Wrapped) (A : Wrapped) (N : Nat) (once1 : Bool),
      getProp s._listeners e = some (pre ++ A :: post) →
      (∀ w ∈ pre ++ post, w.once = false ∧ code w.listener args = ⟨[], .returns⟩) →
      A.once = false →
      code A.listener args = ⟨[.addListener e N once1 false .null .null none], .returns⟩ →
      code N args = ⟨[], .returns⟩ →
      (emit code e args s).1 = .fulfilled ∧
      (emit code e args s).2.calls
        = s.calls ++ (pre ++ A :: post).map (fun w => (w.listener, args)) ∧
      listenersOf (emit code e args s).2 e
        = (pre ++ A :: post).map Wrapped.fire ++ [⟨N, once1, false⟩] ∧
      (emitEach code e [args, args] s).1 = [.fulfilled, .fulfilled] ∧
      (emitEach code e [args, args] s).2.calls
        = s.calls ++ (pre ++ A :: post).map (fun w => (w.listener, args))
          ++ (pre ++ A :: post).map (fun w => (w.listener, args)) ++ [(N, args)]) ∧
    (emit busyCode "event" [] appendsWhileDispatched).2.calls = [(1, []), (20, []), (2, [])] ∧
    (emitEach busyCode "event" [[], []] appendsWhileDispatched).2.calls
      = [(1, []), (20, []), (2, []), (1, []), (20, []), (2, []), (21, [])] := by
  refine ⟨fun code e args s => emitWith_eq_invokeIndices _ e args s, ?_, by decide, by decide⟩
  intro code e args s pre post A N once1 hseq hquiet hA hcode hN
  have hspent : ∀ w : Wrapped, w.once = false → w.spent = false := by
    intro w hw
    simp [Wrapped.spent, hw]
  obtain ⟨s1, h1, h2, h3⟩ := emit_with_appending_listener code e args s pre post A N once1 hseq
    (fun w hw => ⟨hspent w (hquiet w hw).1, (hquiet w hw).2⟩) (hspent A hA) hcode
  have hseq1 : getProp s1._listeners e
      = some (pre.map Wrapped.fire ++ A.fire :: (post.map Wrapped.fire ++ [⟨N, once1, false⟩])) := by
    rw [h2]
    simp
  have hquiet1 : ∀ w ∈ pre.map Wrapped.fire ++ (post.map Wrapped.fire ++ [⟨N, once1, false⟩]),
      w.spent = false ∧ code w.listener args = ⟨[], .returns⟩ := by
    intro w hw
    simp only [List.mem_append, List.mem_map, List.mem_singleton] at hw
    rcases hw with ⟨w0, hw0, rfl⟩ | ⟨w0, hw0, rfl⟩ | rfl
    · exact ⟨by simp [Wrapped.spent, Wrapped.fire, (hquiet w0 (by simp [hw0])).1],
        (hquiet w0 (by simp [hw0])).2⟩
    · exact ⟨by simp [Wrapped.spent, Wrapped.fire, (hquiet w0 (by simp [hw0])).1],
        (hquiet w0 (by simp [hw0])).2⟩
    · exact ⟨by simp [Wrapped.spent], hN⟩
  obtain ⟨s2, k1, _, k3⟩ := emit_with_appending_listener code e args s1 (pre.map Wrapped.fire)
    (post.map Wrapped.fire ++ [⟨N, once1, false⟩]) A.fire N once1 hseq1 hquiet1
    (by simp [Wrapped.spent, Wrapped.fire, hA]) hcode
  refine ⟨by rw [h1], by rw [h1, h3], by rw [h1]; exact listenersOf_eq_of_getProp h2, ?_, ?_⟩
  · simp [emitEach, h1, k1]
  · simp only [emitEach, h1, k1, k3, h3]
    simp [Wrapped.fire, Function.comp_def]

theorem emit_reads_count_once_witness :
    (emit busyCode "event" [] appendsWhileDispatched).1 = .fulfilled ∧
    listenersOf (emit busyCode "event" [] appendsWhileDispatched).2 "event"
      = [⟨1, false, true⟩, ⟨20, false, true⟩, ⟨2, false, true⟩, ⟨21, false, false⟩] :=
  ⟨(emit_reads_count_once.2.1 busyCode "event" [] appendsWhileDispatched [⟨1, false, false⟩]
      [⟨2, false, false⟩] ⟨20, false, false⟩ 21 false (by decide) (by decide) rfl rfl rfl).1,
    ((emit_reads_count_once.2.1 busyCode "event" [] appendsWhileDispatched [⟨1, false, false⟩]
      [⟨2, false, false⟩] ⟨20, false, false⟩ 21 false (by decide) (by decide) rfl rfl rfl).2.2.1).trans
      (by decide)⟩


/-- C21: let `e` be an ordinary event with the array `seq`, whose listeners are
live, leave the registry alone and each return normally or throw
synchronously, and let `'listener-error'` have the non-empty array `errs`,
whose listeners return normally and leave the registry alone. Then
`emit(e, ...args)` is fulfilled, and it calls every listener of `seq`, in
order; right after each one that throws, with error `E`, it dispatches
`'listener-error'` once, with `E` as only argument, which calls the live
listeners of the error channel. When no listener of `errs` is a `once`
listener, that is all of `errs`, in order, after every listener that throws. -/
theorem redirection_does_not_interrupt_dispatch (code : Program) (e : EventName)
    (args : List Value) (s : State) (seq errs : List Wrapped)
    (hne : e ≠ "listener-error")
    (hseq : getProp s._listeners e = some seq)
    (herrs : getProp s._listeners "listener-error" = some errs) (hpos : errs ≠ [])
    (hquiet : ∀ h ∈ errs, ∀ a, code h.listener a = ⟨[], .returns⟩)
    (hlisteners : ∀ w ∈ seq, w.spent = false ∧ (code w.listener args).effects = [] ∧
      ∀ E, (code w.listener args).completion ≠ .rejects E) :
    (emit code e args s).1 = .fulfilled ∧
    (emit code e args s).2.calls = s.calls ++ dispatchCalls code args seq errs ∧
    listenersOf (emit code e args s).2 e = seq.map Wrapped.fire ∧
    ((∀ h ∈ errs, h.once = false) →
      (emit code e args s).2.calls = s.calls ++ seq.flatMap (fun w => (w.listener, args) ::
        match (code w.listener args).completion with
        | .throws E => errs.map (fun h => (h.listener, [E]))
        | _ => [])) := by
  obtain ⟨s1, h1, h2, h3⟩ := emitLoop_redirecting code e args hne seq [] hlisteners [] s errs
    (by simpa using hseq) herrs hpos hquiet
  simp only [List.length_nil, List.nil_append, List.append_nil] at h1 h2
  have hemit : emit code e args s = (.fulfilled, s1) := by
    unfold emit emitWith
    simp only [hne, if_false, listenerCount, hseq]
    split
    · exact h1
    · have hnil : seq = [] := by
        cases seq with
        | nil => rfl
        | cons a seq => simp at *
      subst hnil
      simpa [emitLoop] using h1
  refine ⟨by rw [hemit], by rw [hemit, h3], by rw [hemit]; exact listenersOf_eq_of_getProp h2,
    fun honce => ?_⟩
  rw [hemit, h3, dispatchCalls_of_not_once code args errs seq errs rfl honce]

theorem redirection_does_not_interrupt_dispatch_witness :
    (emit busyCode "event" [] twoThrow).1 = .fulfilled ∧
    (emit busyCode "event" [] twoThrow).2.calls
      = [(1, []), (3, []), (10, [.object 100]), (2, []), (6, []), (10, [.object 200]), (4, [])] ∧
    (emit busyCode "event" [] twoThrowOnce).2.calls
      = [(1, []), (3, []), (11, [.object 100]), (10, [.object 100]), (2, []), (6, []),
          (10, [.object 200]), (4, [])] :=
  ⟨(redirection_does_not_interrupt_dispatch busyCode "event" [] twoThrow
      [⟨1, false, false⟩, ⟨3, false, false⟩, ⟨2, false, false⟩, ⟨6, false, false⟩,
        ⟨4, false, false⟩] [⟨10, false, false⟩] (by decide) (by decide) (by decide) (by decide)
      (by intro h hh; simp at hh; subst hh; exact fun a => rfl)
      (by
        intro w hw
        simp at hw
        rcases hw with rfl | rfl | rfl | rfl | rfl <;>
          exact ⟨rfl, rfl, fun E => by simp [busyCode]⟩)).1,
    ((redirection_does_not_interrupt_dispatch busyCode "event" [] twoThrow
      [⟨1, false, false⟩, ⟨3, false, false⟩, ⟨2, false, false⟩, ⟨6, false, false⟩,
        ⟨4, false, false⟩] [⟨10, false, false⟩] (by decide) (by decide) (by decide) (by decide)
      (by intro h hh; simp at hh; subst hh; exact fun a => rfl)
      (by
        intro w hw
        simp at hw
        rcases hw with rfl | rfl | rfl | rfl | rfl <;>
          exact ⟨rfl, rfl, fun E => by simp [busyCode]⟩)).2.2.2 (by decide)).trans (by decide),
    ((redirection_does_not_interrupt_dispatch busyCode "event" [] twoThrowOnce
      [⟨1, false, false⟩, ⟨3, false, false⟩, ⟨2, false, false⟩, ⟨6, false, false⟩,
        ⟨4, false, false⟩] [⟨11, true, false⟩, ⟨10, false, false⟩] (by decide) (by decide)
      (by decide) (by decide)
      (by intro h hh; simp at hh; rcases hh with rfl | rfl <;> exact fun a => rfl)
      (by
        intro w hw
        simp at hw
        rcases hw with rfl | rfl | rfl | rfl | rfl <;>
          exact ⟨rfl, rfl, fun E => by simp [busyCode]⟩)).2.1).trans (by decide)⟩

end PromiseEventEmitter
